import Mathlib

/-!
# blugnu/env: parsing environment variables and loading `.env` files

A shallow embedding of the Go package `env` (files `errors.go`, `parse.go`,
`load.go`, `funcs.go`) together with the parts of the Go standard library the
package calls into (`errors.Is`, `errors.Join`, `fmt.Errorf` with one `%w`,
`strings.TrimSpace`, `strings.SplitN`, `os.Setenv`, `os.LookupEnv`).

Modelling conventions

* A Go `string` is a Lean `String`.
* A value of the Go interface `error` is a value of `Err`; `Err.nil` is the nil
  interface value.
* A Go function value that may have effects (a conversion function, a test
  double) is a function that threads the state it closes over.
* A run-time panic is the constructor `Result.panic`.
-/

set_option autoImplicit false

namespace env

/-! ## Errors -/

mutual
/-- Values of the Go interface `error`.

* `nil` is the nil interface value;
* `errorString id msg` is a `*errors.errorString` made by `errors.New msg`;
  two such values are equal in Go when they are the same pointer, and `id`
  stands for that identity;
* `errno code text` is a `syscall.Errno` with the text the platform gives it;
* `syscallError`, `pathError` are `*os.SyscallError`, `*fs.PathError`;
* `numError` is a `*strconv.NumError`;
* `parseError`, `invalidValueError`, `rangeError` are the struct types
  `ParseError`, `InvalidValueError`, `RangeError[int]` of `errors.go`;
* `wrapError msg err` is the `*fmt.wrapError` built by `fmt.Errorf` with one `%w`;
* `joinError errs` is the `*errors.joinError` built by `errors.Join`.

All of these Go types are comparable, so `==` between two of them never panics;
it is modelled by structural equality. -/
inductive Err where
  | nil
  | errorString (id : Nat) (msg : String)
  | errno (code : Nat) (text : String)
  | syscallError (syscall : String) (err : Err)
  | pathError (op : String) (path : String) (err : Err)
  | numError (Func : String) (Num : String) (err : Err)
  | parseError (VariableName : String) (err : Err)
  | invalidValueError (Value : String) (err : Err)
  | rangeError (Min : Int) (Max : Int)
  | wrapError (msg : String) (err : Err)
  | joinError (errs : ErrList)
  deriving DecidableEq
/-- A slice of errors, `[]error`. -/
inductive ErrList where
  | nil
  | cons (head : Err) (tail : ErrList)
  deriving DecidableEq
end

/-- The slice as a list. -/
def ErrList.toList : ErrList → List Err
  | .nil => []
  | .cons e es => e :: es.toList

/-- The list as a slice. -/
def ErrList.ofList : List Err → ErrList
  | [] => .nil
  | e :: es => .cons e (ErrList.ofList es)

/-- Sentinel `ErrNotSet = errors.New("not set")` of `errors.go`. -/
def ErrNotSet : Err := .errorString 1 "not set"

/-- Sentinel `ErrSetVariableFailed = errors.New("set variable failed")` of `errors.go`. -/
def ErrSetVariableFailed : Err := .errorString 2 "set variable failed"

/-- Sentinel `fs.ErrNotExist` (the same value as `os.ErrNotExist`). -/
def ErrNotExist : Err := .errorString 3 "file does not exist"

/-- Sentinel `fs.ErrExist`. -/
def ErrExist : Err := .errorString 4 "file already exists"

/-- Sentinel `fs.ErrPermission`. -/
def ErrPermission : Err := .errorString 5 "permission denied"

/-- Sentinel `errors.ErrUnsupported`. -/
def ErrUnsupported : Err := .errorString 6 "unsupported operation"

/-- Sentinel `strconv.ErrSyntax`. -/
def ErrSyntax : Err := .errorString 7 "invalid syntax"

/-- Sentinel `strconv.ErrRange`. -/
def ErrRange : Err := .errorString 8 "value out of range"

/-- Modelled from the spec: the sentinel `ErrNotAnAbsoluteURL` of package `as`,
which `url.go` returns and whose declaration is not among the sources; the spec
calls it the "not absolute" error, and its text is not known. -/
def ErrNotAnAbsoluteURL : Err := .errorString 9 "not an absolute URL"

/-- Linux `syscall.ENOENT`. -/
def ENOENT : Err := .errno 2 "no such file or directory"

/-- Linux `syscall.EINVAL`. -/
def EINVAL : Err := .errno 22 "invalid argument"

/-- Method `syscall.Errno.Is` (linux): the switch over the four sentinels. -/
def ErrnoIs (code : Nat) (target : Err) : Bool :=
  if target = ErrPermission then code == 13 || code == 1
  else if target = ErrExist then code == 17 || code == 39
  else if target = ErrNotExist then code == 2
  else if target = ErrUnsupported then code == 38 || code == 95
  else false

/-- The two lower-case hexadecimal digits of a number below 256. -/
def hexByte (n : Nat) : List Char :=
  ["0123456789abcdef".data.getD (n / 16) '0', "0123456789abcdef".data.getD (n % 16) '0']

/-- Function `strconv.Quote` on the characters of a string: the escapes of the
double quote (34), the backslash (92) and the ASCII control characters.  A
character above U+007E is kept as it is, which is what `strconv.Quote` does
when the character is printable; the tables of `unicode.IsPrint` are not
modelled. -/
def quoteChars : List Char → List Char
  | [] => []
  | c :: cs =>
      (if c.toNat = 34 then [Char.ofNat 92, Char.ofNat 34]
        else if c.toNat = 92 then [Char.ofNat 92, Char.ofNat 92]
        else if c.toNat = 7 then [Char.ofNat 92, 'a']
        else if c.toNat = 8 then [Char.ofNat 92, 'b']
        else if c.toNat = 12 then [Char.ofNat 92, 'f']
        else if c.toNat = 10 then [Char.ofNat 92, 'n']
        else if c.toNat = 13 then [Char.ofNat 92, 'r']
        else if c.toNat = 9 then [Char.ofNat 92, 't']
        else if c.toNat = 11 then [Char.ofNat 92, 'v']
        else if c.toNat < 32 ∨ c.toNat = 127 then [Char.ofNat 92, 'x'] ++ hexByte c.toNat
        else [c]) ++ quoteChars cs

/-- Function `strconv.Quote`. -/
def strconvQuote (s : String) : String :=
  String.mk ([Char.ofNat 34] ++ quoteChars s.data ++ [Char.ofNat 34])

mutual
/-- The method `Error() string` of every modelled error type.  For the types of
`errors.go` this is the table of four closures indexed by
`when{hasName, hasError}`; `%v` of an error prints its `Error()`. -/
def Err.Error : Err → String
  | .nil => "<nil>"
  | .errorString _ msg => msg
  | .errno _ text => text
  | .syscallError syscall err => syscall ++ ": " ++ err.Error
  | .pathError op path err => op ++ " " ++ path ++ ": " ++ err.Error
  | .numError func num err =>
      "strconv." ++ func ++ ": parsing " ++ strconvQuote num ++ ": " ++ err.Error
  | .parseError name err =>
      match decide (name ≠ ""), decide (err ≠ .nil) with
      | false, false => "env.ParseError"
      | false, true => "env.ParseError: " ++ err.Error
      | true, false => "env.ParseError: " ++ name
      | true, true => "env.ParseError: " ++ name ++ ": " ++ err.Error
  | .invalidValueError value err =>
      match decide (value ≠ ""), decide (err ≠ .nil) with
      | false, false => "env.InvalidValueError"
      | false, true => "env.InvalidValueError: " ++ err.Error
      | true, false => "env.InvalidValueError: " ++ value
      | true, true => "env.InvalidValueError: " ++ value ++ ": " ++ err.Error
  | .rangeError min max =>
      if min = 0 ∧ max = 0 then "env.RangeError"
      else "env.RangeError: " ++ toString min ++ " <= (x) <= " ++ toString max
  | .wrapError msg _ => msg
  | .joinError errs => "\n".intercalate errs.ErrorList
/-- The `Error()` of every element of a slice. -/
def ErrList.ErrorList : ErrList → List String
  | .nil => []
  | .cons e es => e.Error :: es.ErrorList
end

mutual
/-- The loop `is(err, target, targetComparable)` of package `errors`, for a
non-nil comparable target: equality, then the `Is` method of the error, then
`Unwrap`.

`ParseError.Is` and `InvalidValueError.Is` call `errors.Is(e.Err, target.Err)`
only when `target.Err != nil`, where it is `false` for `e.Err == nil` and this
loop otherwise. -/
def Err.is : Err → Err → Bool
  | .nil, _ => false
  | .errorString id msg, target => decide (Err.errorString id msg = target)
  | .errno code text, target =>
      decide (Err.errno code text = target) || ErrnoIs code target
  | .syscallError syscall err, target =>
      decide (Err.syscallError syscall err = target) || Err.is err target
  | .pathError op path err, target =>
      decide (Err.pathError op path err = target) || Err.is err target
  | .numError func num err, target =>
      decide (Err.numError func num err = target) || Err.is err target
  | .parseError name err, target =>
      decide (Err.parseError name err = target) ||
        (match target with
          | .parseError tname terr =>
              (tname == "" || name == tname) &&
                (decide (terr = .nil) || (!decide (err = .nil) && Err.is err terr))
          | _ => false) ||
        Err.is err target
  | .invalidValueError value err, target =>
      decide (Err.invalidValueError value err = target) ||
        (match target with
          | .invalidValueError tvalue terr =>
              (tvalue == "" || value == tvalue) &&
                (decide (terr = .nil) || (!decide (err = .nil) && Err.is err terr))
          | _ => false) ||
        Err.is err target
  | .rangeError min max, target =>
      decide (Err.rangeError min max = target) ||
        (match target with
          | .rangeError tmin tmax =>
              decide (Err.rangeError min max = Err.rangeError tmin tmax) ||
                decide (Err.rangeError tmin tmax = Err.rangeError 0 0)
          | _ => false)
  | .wrapError msg err, target =>
      decide (Err.wrapError msg err = target) || Err.is err target
  | .joinError errs, target =>
      decide (Err.joinError errs = target) || ErrList.anyIs errs target
/-- The inner loop over `Unwrap() []error`. -/
def ErrList.anyIs : ErrList → Err → Bool
  | .nil, _ => false
  | .cons e es, target => Err.is e target || ErrList.anyIs es target
end

/-- Function `errors.Is`. -/
def errorsIs (err target : Err) : Bool :=
  if err = .nil ∨ target = .nil then decide (err = target) else err.is target

/-- Function `errors.Join`: drops nil errors, and is nil when none is left. -/
def errorsJoin (errs : List Err) : Err :=
  match errs.filter (fun e => decide (e ≠ .nil)) with
  | [] => .nil
  | e :: es => .joinError (ErrList.ofList (e :: es))

/-- Call `fmt.Errorf("%s: %w", s, err)` with a non-nil `err`. -/
def fmtErrorf (s : String) (err : Err) : Err :=
  .wrapError (s ++ ": " ++ err.Error) err

/-- Method `ParseError.Is` of `errors.go`, for the receiver
`ParseError{VariableName: name, Err: err}`. -/
def ParseError_Is (name : String) (err : Err) (target : Err) : Bool :=
  match target with
  | .parseError tname terr =>
      (tname == "" || name == tname) && (decide (terr = .nil) || errorsIs err terr)
  | _ => false

/-- Method `InvalidValueError.Is` of `errors.go`, for the receiver
`InvalidValueError{Value: value, Err: err}`. -/
def InvalidValueError_Is (value : String) (err : Err) (target : Err) : Bool :=
  match target with
  | .invalidValueError tvalue terr =>
      (tvalue == "" || value == tvalue) && (decide (terr = .nil) || errorsIs err terr)
  | _ => false

/-! ## Parse and Override (`parse.go`) -/

/-- Type `ConversionFunc[T]`, a `func(string) (T, error)`.  The function may be
a closure with effects: `σ` is the state it reads and writes. -/
abbrev ConversionFunc (σ T : Type) := String → σ → (T × Err) × σ

/-- Function `Parse`.  `osLookupEnv` is the function variable of `funcs.go`
(`none` for `ok == false`); `default` is the zero value `*new(T)`. -/
def Parse {σ T : Type} [Inhabited T] (osLookupEnv : String → Option String) (name : String)
    (cnv : ConversionFunc σ T) (s : σ) : (T × Err) × σ :=
  match osLookupEnv name with
  | some v =>
      match cnv v s with
      | ((r, err), s1) =>
          if err ≠ .nil then
            ((default, .parseError name (.invalidValueError v err)), s1)
          else ((r, .nil), s1)
  | none => ((default, .parseError name ErrNotSet), s)

/-- What a call of `Override` did: the store `*dest = v` it executed, if any,
and its two results. -/
structure Overridden (T : Type) where
  stored : Option T
  changed : Bool
  err : Err

/-- The destination after the call, given its value before. -/
def Overridden.dest {T : Type} (o : Overridden T) (before : T) : T :=
  o.stored.getD before

/-- Function `Override`; `dest` is the value of `*dest` at the call. -/
def Override {σ T : Type} [Inhabited T] [DecidableEq T] (dest : T)
    (osLookupEnv : String → Option String) (name : String)
    (cnv : ConversionFunc σ T) (s : σ) : Overridden T × σ :=
  match Parse osLookupEnv name cnv s with
  | ((v, err), s1) =>
      if err = .nil ∧ dest ≠ v then (⟨some v, true, .nil⟩, s1)
      else (⟨none, false, err⟩, s1)

/-! ## The process environment and strings (`os`, `strings`) -/

/-- The process environment: the variables that are set, with their values. -/
abbrev Environ := List (String × String)

/-- Function `os.LookupEnv` on an environment: the value of the first entry
named `key`. -/
def Environ.lookup (env : Environ) (key : String) : Option String :=
  match env with
  | [] => none
  | (k, v) :: rest => if k = key then some v else Environ.lookup rest key

/-- The environment with `key` set to `value`: the entry of `key` is replaced
where it stands, and a new name is added at the end. -/
def Environ.set (env : Environ) (key value : String) : Environ :=
  match env with
  | [] => [(key, value)]
  | (k, v) :: rest => if k = key then (key, value) :: rest else (k, v) :: Environ.set rest key value

/-- The check of `syscall.Setenv` (unix): the key is not empty and holds
neither `=` nor NUL, and the value holds no NUL. -/
def setenvValid (key value : String) : Bool :=
  !(key.data.isEmpty || key.data.contains '=' || key.data.contains (Char.ofNat 0) ||
    value.data.contains (Char.ofNat 0))

/-- Function `os.Setenv` (unix): `EINVAL` wrapped in a `*os.SyscallError` when
the check fails, and otherwise the variable is set and the error is nil. -/
def osSetenv (env : Environ) (key value : String) : Environ × Err :=
  if setenvValid key value then (env.set key value, .nil)
  else (env, .syscallError "setenv" EINVAL)

/-- Function `unicode.IsSpace`. -/
def unicodeIsSpace (c : Char) : Bool :=
  let n := c.toNat
  n == 0x09 || n == 0x0A || n == 0x0B || n == 0x0C || n == 0x0D || n == 0x20 ||
    n == 0x85 || n == 0xA0 || n == 0x1680 || (0x2000 ≤ n && n ≤ 0x200A) ||
    n == 0x2028 || n == 0x2029 || n == 0x202F || n == 0x205F || n == 0x3000

/-- Function `strings.TrimSpace`. -/
def stringsTrimSpace (s : String) : String :=
  String.mk ((s.data.dropWhile unicodeIsSpace).reverse.dropWhile unicodeIsSpace).reverse

/-- Call `strings.SplitN(s, sep, 2)` for a separator of one character: the
text before and after the first `sep`, or `s` alone when it holds no `sep`. -/
def stringsSplitN2 (s : String) (sep : Char) : List String :=
  match s.data.dropWhile (fun c => c != sep) with
  | [] => [s]
  | _ :: after => [String.mk (s.data.takeWhile (fun c => c != sep)), String.mk after]

/-! ## Load (`load.go`) -/

/-- The outcome of running Go code that may panic. -/
inductive Result (α : Type) where
  | returned (a : α)
  | panic (msg : String)
  deriving DecidableEq

/-- What `loadFile` sees of a `fileReader` through `bufio.Scanner`: the texts
of the successive `scanner.Scan()` calls that return true, and the
`scanner.Err()` left when `Scan` returns false. -/
structure FileReader where
  lines : List String
  scanErr : Err
  deriving DecidableEq

/-- The function variable `newFileReader` of `funcs.go`: a
`func(path string) (fileReader, error)`, which may be a closure over a state
`φ` (a test double, the file system). -/
abbrev NewFileReader (φ : Type) := String → φ → (FileReader × Err) × φ

/-- The body of the loop `for scanner.Scan() {...}` of `loadFile` up to the
call of `os.Setenv`, for the text of one line: `none` when the line is skipped
by `continue`, and otherwise the name and the value to set.  Indexing
`parts[1]` panics when the split gives one part; `parts[0]` always exists. -/
def splitLine (text : String) : Result (Option (String × String)) :=
  let line := stringsTrimSpace text
  if line = "" ∨ line.data.head? = some '#' then .returned none
  else
    let parts := stringsSplitN2 line '='
    match parts[0]?, parts[1]? with
    | some p0, some p1 => .returned (some (stringsTrimSpace p0, stringsTrimSpace p1))
    | _, _ => .panic "runtime error: index out of range [1] with length 1"

/-- The loop `for scanner.Scan() {...}` of `loadFile` over the remaining lines:
the slice `errs` and the environment it leaves. -/
def scanLoop : List String → Environ → List Err → Result (List Err) × Environ
  | [], env, errs => (.returned errs, env)
  | text :: rest, env, errs =>
      match splitLine text with
      | .returned none => scanLoop rest env errs
      | .returned (some (vname, value)) =>
          match osSetenv env vname value with
          | (env1, err) => scanLoop rest env1 (errs ++ [err])
      | .panic msg => (.panic msg, env)

/-- Function `loadFile`. -/
def loadFile {φ : Type} (newFileReader : NewFileReader φ) (path : String) (env : Environ)
    (st : φ) : Result Err × Environ × φ :=
  match newFileReader path st with
  | ((file, err), st1) =>
      if err ≠ .nil then (.returned err, env, st1)
      else
        match scanLoop file.lines env [] with
        | (.returned errs, env1) => (.returned (errorsJoin errs), env1, st1)
        | (.panic msg, env1) => (.panic msg, env1, st1)

/-- The value of `dotenvRequired` in `Load`.  The map `filenames` has the
elements of `files` as its keys, so `len(filenames)` is the number of distinct
elements and `filenames[f]` is membership. -/
def dotenvRequired (files : List String) : Bool :=
  files.dedup.length == 0 || (decide (".env" ∈ files) || decide ("./.env" ∈ files))

/-- The value of `files` in `Load` after `.env` is put in front when it was not
given. -/
def effectiveFiles (files : List String) : List String :=
  if !decide ("./.env" ∈ files) && !decide (".env" ∈ files) then [".env"] ++ files else files

/-- The loop `for _, filename := range files {...}` of `Load` over the
remaining files: the slice `errs`, the environment and the state it leaves. -/
def loadLoop {φ : Type} (newFileReader : NewFileReader φ) (required : Bool) :
    List String → Environ → φ → List Err → Result (List Err) × Environ × φ
  | [], env, st, errs => (.returned errs, env, st)
  | filename :: rest, env, st, errs =>
      match loadFile newFileReader filename env st with
      | (.panic msg, env1, st1) => (.panic msg, env1, st1)
      | (.returned err, env1, st1) =>
          if err = .nil then loadLoop newFileReader required rest env1 st1 errs
          else if !required && (filename == ".env" || filename == "./.env") &&
              errorsIs err ErrNotExist then
            loadLoop newFileReader required rest env1 st1 errs
          else loadLoop newFileReader required rest env1 st1 (errs ++ [fmtErrorf filename err])

/-- Function `Load`. -/
def Load {φ : Type} (newFileReader : NewFileReader φ) (files : List String) (env : Environ)
    (st : φ) : Result Err × Environ × φ :=
  match loadLoop newFileReader (dotenvRequired files) (effectiveFiles files) env st [] with
  | (.returned errs, env1, st1) => (.returned (errorsJoin errs), env1, st1)
  | (.panic msg, env1, st1) => (.panic msg, env1, st1)

/-- A file system: what opening each path gives. -/
abbrev FileSystem := String → FileReader × Err

/-- The test double of `load_test.go`: it answers from `fs` and appends the
path to the list of the paths it was called with. -/
def recording (fs : FileSystem) : NewFileReader (List String) :=
  fun path filesLoaded => (fs path, filesLoaded ++ [path])

/-- A readable file with the given lines. -/
def fakeFile (lines : List String) : FileReader × Err := (⟨lines, .nil⟩, .nil)

/-- A file that cannot be opened. -/
def noFile (err : Err) : FileReader × Err := (⟨[], .nil⟩, err)

/-! ### Vocabulary for the properties of Load -/

/-- Whether the loop body panics on the text of a line: the line is neither
blank nor a comment and holds no `=`. -/
def malformed (text : String) : Bool :=
  match splitLine text with
  | .panic _ => true
  | .returned _ => false

/-- The assignments the lines make, in line order: the name and value of every
line that is neither skipped nor malformed. -/
def assignments (lines : List String) : List (String × String) :=
  lines.filterMap (fun text =>
    match splitLine text with
    | .returned (some kv) => some kv
    | _ => none)

/-- The environment after the calls `os.Setenv(name, value)` for the pairs, in
order. -/
def Environ.setAll (env : Environ) (kvs : List (String × String)) : Environ :=
  kvs.foldl (fun e kv => (osSetenv e kv.1 kv.2).1) env

/-- The error of the call `os.Setenv(key, value)`, which does not depend on the
environment. -/
def setenvErr (key value : String) : Err := (osSetenv [] key value).2

/-- The assignments of the file at `path`: those of its lines when it opens,
none when it does not. -/
def fileAssignments (fs : FileSystem) (path : String) : List (String × String) :=
  if (fs path).2 = .nil then assignments (fs path).1.lines else []

/-- The file at `path` holds no malformed line, or does not open. -/
def fileFormatted (fs : FileSystem) (path : String) : Prop :=
  (fs path).2 = .nil → ∀ text ∈ (fs path).1.lines, malformed text = false

/-- The error `loadFile` returns for the file at `path`: the error of opening
it, or else the join of the errors of its set operations. -/
def fileErr (fs : FileSystem) (path : String) : Err :=
  if (fs path).2 ≠ .nil then (fs path).2
  else errorsJoin ((assignments (fs path).1.lines).map (fun kv => setenvErr kv.1 kv.2))

/-- The condition under which `Load` skips the error of a file: the default
file is not required, the file is the default file, and the error matches
`fs.ErrNotExist`. -/
def tolerated (required : Bool) (filename : String) (err : Err) : Bool :=
  !required && (filename == ".env" || filename == "./.env") && errorsIs err ErrNotExist

/-- The errors `Load` records for the files, in order: for every file whose
error is neither nil nor tolerated, that error wrapped with the path. -/
def recordedErrs (fs : FileSystem) (required : Bool) (files : List String) : List Err :=
  files.filterMap (fun path =>
    if fileErr fs path = .nil ∨ tolerated required path (fileErr fs path) = true then none
    else some (fmtErrorf path (fileErr fs path)))

/-- All the assignments of the files, in the order of the files. -/
def allAssignments (fs : FileSystem) (files : List String) : List (String × String) :=
  (files.map (fileAssignments fs)).flatten

/-- The file system of the scenarios `explicit .env` of `load_test.go`. -/
def fsBoth : FileSystem := fun path =>
  if path = ".env" then fakeFile ["VAR=dotenv-value"]
  else if path = "test.env" then fakeFile ["VAR=test-value"]
  else noFile (.pathError "open" path ENOENT)

/-- The file system of the scenario `file path argument/valid file/.env does
not exist` of `load_test.go`. -/
def fsNoDotenv : FileSystem := fun path =>
  if path = "test.env" then fakeFile ["VAR1=loaded-value-1", "VAR2=loaded-value-2"]
  else noFile ErrNotExist

/-- A file system in which `.env` opens and holds the line `FOO`, which is not
blank, not a comment and has no `=`, and `test.env` opens and is well formed. -/
def fsMalformedDotenv : FileSystem := fun path =>
  if path = ".env" then fakeFile ["FOO"]
  else if path = "test.env" then fakeFile ["VAR=test-value"]
  else noFile ErrNotExist

/-- The file system of the scenario `file path argument/valid file/.env error`
of `load_test.go`. -/
def fsDotenvError : FileSystem := fun path =>
  if path = ".env" then noFile (.errorString 101 "error reading .env")
  else if path = "test.env" then fakeFile ["VAR1=loaded-value-1", "VAR2=loaded-value-2"]
  else noFile ErrNotExist

/-- A file system in which `.env` does not exist, `a.env` opens and holds the
line `export` after an assignment, and `b.env` opens and is well formed. -/
def fsMalformedFirst : FileSystem := fun path =>
  if path = "a.env" then fakeFile ["A=1", "export"]
  else if path = "b.env" then fakeFile ["B=2"]
  else noFile ErrNotExist

/-- The file system of the scenario `multiple errors` of `load_test.go`. -/
def fsBothFail : FileSystem := fun path =>
  if path = ".env" then noFile (.errorString 101 "error reading .env")
  else noFile (.errorString 102 "error reading test.env")

example : Load (recording fsBoth) [".env", "test.env"] [("VAR", "env-value")] [] =
    (.returned .nil, [("VAR", "test-value")], [".env", "test.env"]) := by decide
example : Load (recording fsBoth) ["test.env", ".env"] [("VAR", "env-value")] [] =
    (.returned .nil, [("VAR", "dotenv-value")], ["test.env", ".env"]) := by decide
example : (scanLoop ["VAR1=value-1", "", "  # comment", " VAR2 = value-2=with-equals "] [] []) =
    (.returned [.nil, .nil], [("VAR1", "value-1"), ("VAR2", "value-2=with-equals")]) := by decide
example : (scanLoop ["A=1", "FOO", "B=2"] [] []).1 =
    .panic "runtime error: index out of range [1] with length 1" := by decide

/-- The number written by a list of decimal digits, most significant first;
`none` when a character is not a digit. -/
def digitsValue : List Char → Nat → Option Nat
  | [], acc => some acc
  | c :: cs, acc =>
      if c.isDigit then digitsValue cs (acc * 10 + (c.toNat - 48)) else none

/-- An example conversion function: reads a non-empty string of decimal digits,
fails with a syntax error on anything else, and counts its calls in its state. -/
def digitsCounting : ConversionFunc Nat Int := fun v calls =>
  match v.data with
  | [] => (((0 : Int), .errorString 100 "invalid syntax"), calls + 1)
  | c :: cs =>
      match digitsValue (c :: cs) 0 with
      | some n => (((n : Int), .nil), calls + 1)
      | none => (((0 : Int), .errorString 100 "invalid syntax"), calls + 1)

/-! ## Conversion functions (package `as`) -/

/-- The loop of `strconv.ParseUint(s, 10, 64)` over the remaining characters,
with the number read so far: a character that is not a decimal digit ends it
with the syntax error, and a digit that makes the number pass `1<<64 - 1` ends
it with the range error and the value `1<<64 - 1`; the first of the two to
occur decides.  `1844674407370955162` is `cutoff = maxUint64/10 + 1`. -/
def parseUintLoop : List Char → Nat → Nat × Err
  | [], n => (n, .nil)
  | c :: cs, n =>
      if !c.isDigit then (0, ErrSyntax)
      else if n ≥ 1844674407370955162 then (18446744073709551615, ErrRange)
      else if n * 10 + (c.toNat - 48) > 18446744073709551615 then
        (18446744073709551615, ErrRange)
      else parseUintLoop cs (n * 10 + (c.toNat - 48))

/-- The characters of `s` after its sign, if it has one. -/
def afterSign (cs : List Char) : List Char :=
  match cs with
  | '+' :: ds => ds
  | '-' :: ds => ds
  | ds => ds

/-- Function `strconv.Atoi` for a 64-bit `int`, as `strconv.ParseInt(s, 10, 0)`
computes it (the fast path of `Atoi` for strings of fewer than 19 bytes gives
the same results): an optional sign, then decimal digits; a `*NumError` with
`Func` set to `Atoi` and `Num` to `s`, wrapping `ErrSyntax` with the value 0,
or `ErrRange` with the nearest `int`. -/
def strconvAtoi (s : String) : Int × Err :=
  if s.data = [] ∨ afterSign s.data = [] then (0, .numError "Atoi" s ErrSyntax)
  else
    match parseUintLoop (afterSign s.data) 0 with
    | (un, err) =>
        if err = ErrSyntax then (0, .numError "Atoi" s ErrSyntax)
        else if s.data.head? ≠ some '-' ∧ un ≥ 9223372036854775808 then
          (9223372036854775807, .numError "Atoi" s ErrRange)
        else if s.data.head? = some '-' ∧ un > 9223372036854775808 then
          (-9223372036854775808, .numError "Atoi" s ErrRange)
        else if s.data.head? = some '-' then (-(un : Int), .nil)
        else ((un : Int), .nil)

/-- The string `s` writes the integer `i` in base 10: an optional sign, then
one decimal digit or more. -/
def IsDecimal (s : String) (i : Int) : Prop :=
  ∃ (ds : List Char) (n : Nat), ds ≠ [] ∧ digitsValue ds 0 = some n ∧
    ((s.data = ds ∧ i = (n : Int)) ∨ (s.data = '+' :: ds ∧ i = (n : Int)) ∨
      (s.data = '-' :: ds ∧ i = -(n : Int)))

/-- Function `as.Int` of `int.go`. -/
def asInt (s : String) : Int × Err :=
  match strconvAtoi s with
  | (i, err) => if err ≠ .nil then (0, err) else (i, .nil)

/-- Function `as.PortNo` of `portNo.go`. -/
def asPortNo (s : String) : Int × Err :=
  match strconvAtoi s with
  | (i, err) =>
      if err ≠ .nil then (0, err)
      else if i < 0 ∨ i > 65535 then (0, .rangeError 0 65535)
      else (i, .nil)

/-- The value of an `int64` computation whose exact result is `x`: Go wraps
around on overflow. -/
def wrapInt64 (x : Int) : Int := (x + 9223372036854775808) % 18446744073709551616 -
  9223372036854775808

/-- Function `as.Duration` of `duration.go`.  A `time.Duration` is an `int64`
count of nanoseconds; `timeParseDuration` stands for `time.ParseDuration`,
which is called only when no unit is given. -/
def asDuration (timeParseDuration : String → Int × Err) (s : String) (u : List Int) :
    Int × Err :=
  match u with
  | [] => timeParseDuration s
  | u0 :: _ =>
      match asInt s with
      | (i, err) => if err ≠ .nil then (0, err) else (wrapInt64 (i * u0), .nil)

/-- Function `as.String` of `string.go`. -/
def asString (s : String) : String × Err := (s, .nil)

/-- The fields of a `url.URL` that `url.Parse` fills from the text. -/
structure URL where
  Scheme : String
  Opaque : String
  Host : String
  Path : String
  RawQuery : String
  Fragment : String
  deriving DecidableEq

/-- Method `(*url.URL).IsAbs`: the scheme is not empty. -/
def URL.IsAbs (u : URL) : Bool := u.Scheme != ""

/-- Function `as.AbsoluteURL` of `url.go`.  `urlParse` is the function variable
of package `as` that the tests replace (its declaration is not among the
sources; `url.Parse` is what it holds); its first result is a `*url.URL`,
`none` for the nil pointer, on which `u.IsAbs()` panics. -/
def asAbsoluteURL (urlParse : String → Option URL × Err) (s : String) :
    Result (Option URL × Err) :=
  match urlParse s with
  | (u, err) =>
      if err ≠ .nil then .returned (none, err)
      else
        match u with
        | none => .panic "runtime error: invalid memory address or nil pointer dereference"
        | some url =>
            if !url.IsAbs then .returned (none, .invalidValueError s ErrNotAnAbsoluteURL)
            else .returned (some url, .nil)

/-- What `url.Parse` gives for the strings of the examples. -/
def urlParseExamples (s : String) : Option URL × Err :=
  if s = "http://example.com" then (some ⟨"http", "", "example.com", "", "", ""⟩, .nil)
  else if s = "/path" then (some ⟨"", "", "", "/path", "", ""⟩, .nil)
  else if s = "mailto:user@example.com" then
    (some ⟨"mailto", "user@example.com", "", "", "", ""⟩, .nil)
  else if s = "file:///etc/hosts" then (some ⟨"file", "", "", "/etc/hosts", "", ""⟩, .nil)
  else if s = "//example.com/path" then (some ⟨"", "", "example.com", "/path", "", ""⟩, .nil)
  else (none, .errorString 103 "url error")

example : asPortNo "123" = (123, .nil) := by decide
example : asPortNo "65536" = (0, .rangeError 0 65535) := by decide
example : asPortNo "-1" = (0, .rangeError 0 65535) := by decide
example : asPortNo "not-a-number" = (0, .numError "Atoi" "not-a-number" ErrSyntax) := by decide
example : asDuration (fun _ => (0, .nil)) "10" [1000000000] = (10000000000, .nil) := by decide
example : asDuration (fun _ => (0, .nil)) "1h" [1000000000] =
    (0, .numError "Atoi" "1h" ErrSyntax) := by decide

/-! ## The generic out-of-range error (`errors.go`) -/

/-- Type `RangeError[T]`. -/
structure RangeError (T : Type) where
  Min : T
  Max : T
  deriving DecidableEq

/-- Method `RangeError[T].Is`.  `target` is what the type assertion
`target.(RangeError[T])` gives: `some` of the value when the target is a
`RangeError[T]` of the same `T`, `none` for a target of any other type.
`default` is the zero value of `T`. -/
def RangeError.Is {T : Type} [DecidableEq T] [Inhabited T] (e : RangeError T)
    (target : Option (RangeError T)) : Bool :=
  match target with
  | some t => decide (e = t) || decide (t = ⟨default, default⟩)
  | none => false

/-- The type assertion `target.(RangeError[int])` on an error. -/
def asRangeErrorInt (target : Err) : Option (RangeError Int) :=
  match target with
  | .rangeError min max => some ⟨min, max⟩
  | _ => none

/-! ## Snapshot and restore (`state.go`, `env.go`) -/

/-- Function `os.Environ`: one string `name=value` for every variable. -/
def osEnviron (env : Environ) : List String :=
  env.map (fun kv => kv.1 ++ "=" ++ kv.2)

/-- Function `os.Clearenv`. -/
def osClearenv (_ : Environ) : Environ := []

/-- Function `os.Unsetenv` (unix): the variable is removed, and the error is nil. -/
def osUnsetenv (env : Environ) (key : String) : Environ × Err :=
  (env.filter (fun kv => decide (kv.1 ≠ key)), .nil)

/-- Call `strings.Cut(s, sep)` for a separator of one character. -/
def stringsCut (s : String) (sep : Char) : String × String × Bool :=
  match s.data.dropWhile (fun c => c != sep) with
  | [] => (s, "", false)
  | _ :: after => (String.mk (s.data.takeWhile (fun c => c != sep)), String.mk after, true)

/-- Type `state`, a `[]string`. -/
abbrev state := List String

/-- Function `State`. -/
def State (env : Environ) : state := osEnviron env

/-- Method `state.Reset`. -/
def state.Reset (s : state) (env : Environ) : Environ :=
  s.foldl (fun e entry =>
    match stringsCut entry '=' with
    | (k, v, _) => (osSetenv e k v).1) (osClearenv env)

/-- Function `Set` of `env.go`. -/
def Set (env : Environ) (name value : String) : Environ × Err := osSetenv env name value

/-- Function `Unset` of `env.go`, with `osUnsetenv` holding `os.Unsetenv`. -/
def Unset (env : Environ) (names : List String) : Environ × Err :=
  match names with
  | [] => (env, .nil)
  | k :: rest =>
      match osUnsetenv env k with
      | (env1, err) => if err ≠ .nil then (env1, err) else Unset env1 rest

/-- Function `Clear` of `env.go`. -/
def Clear (env : Environ) : Environ := osClearenv env

/-- A change of the environment through the package. -/
inductive Mutation where
  | set (name value : String)
  | unset (names : List String)
  | clear

/-- The environment after a change. -/
def Mutation.apply (m : Mutation) (env : Environ) : Environ :=
  match m with
  | .set name value => (Set env name value).1
  | .unset names => (Unset env names).1
  | .clear => Clear env

/-- The invariant of a process environment: every name is not empty and holds
neither `=` nor NUL, no value holds NUL, and no name occurs twice. -/
def Environ.Valid (env : Environ) : Prop :=
  (∀ kv ∈ env, setenvValid kv.1 kv.2 = true) ∧ (env.map Prod.fst).Nodup

example : state.Reset (State [("A", "1"), ("B", "x=y")]) [("C", "3"), ("A", "2")] =
    [("A", "1"), ("B", "x=y")] := by decide

/-- A file system in which `.env` does not exist and `a.env` opens, gives the
line `A=1` and then fails: `scanner.Scan()` returns false and `scanner.Err()`
is the error of the read. -/
def fsReadFails : FileSystem := fun path =>
  if path = "a.env" then (⟨["A=1"], .errorString 104 "read error"⟩, .nil)
  else noFile ErrNotExist

/-- The file system `fs` with every `scanner.Err()` replaced by nil. -/
def withoutScanErr (fs : FileSystem) : FileSystem := fun path =>
  (⟨(fs path).1.lines, .nil⟩, (fs path).2)

/-! ## Vars (`vars.go`) -/

/-- Type `Vars`, a `map[string]string`, as the list of its entries in the order
in which a `range` over the map yields them.  Go leaves that order unspecified,
so a property of a map is a property of every order of its entries. -/
abbrev Vars := List (String × String)

/-- The keys of a map are distinct. -/
def Vars.WF (v : Vars) : Prop := (v.map Prod.fst).Nodup

/-- Index expression `v[k]`: the value of the key `k`, and the zero value `""`
when the map has no such key. -/
def Vars.index : Vars → String → String
  | [], _ => ""
  | (k1, value) :: rest, k => if k1 = k then value else Vars.index rest k

/-- The operator `<` of Go on two strings, given by their characters: Go
compares the bytes, and in UTF-8 the order of the bytes of two texts is the
order of their code points. -/
def lexLess : List Char → List Char → Bool
  | _, [] => false
  | [], _ :: _ => true
  | a :: as, b :: bs => decide (a.toNat < b.toNat) || (a.toNat == b.toNat && lexLess as bs)

/-- The operator `<` of Go on two strings. -/
def stringLess (a b : String) : Bool := lexLess a.data b.data

/-- Function `slices.Sort` on a `[]string`: the elements in ascending order of
`<`.  The algorithm of the library is not modelled; any sort gives this list,
since two strings of which neither is less than the other are equal. -/
def slicesSort (names : List String) : List String :=
  names.insertionSort (fun a b => stringLess b a = false)

/-- Function `strings.Join`. -/
def stringsJoin (elems : List String) (sep : String) : String := sep.intercalate elems

/-- Method `Vars.Names`. -/
def Vars.Names (v : Vars) : List String := slicesSort (v.map Prod.fst)

/-- Method `Vars.Set`, with `osSetenv` the function variable of `funcs.go`
(`os.Setenv` in production), which acts on a state `σ`. -/
def Vars.Set {σ : Type} (osSetenv : σ → String → String → σ × Err) : Vars → σ → Err × σ
  | [], st => (.nil, st)
  | (k, value) :: rest, st =>
      match osSetenv st k value with
      | (st1, err) =>
          if err ≠ .nil then
            (.wrapError ("failed to set environment variable " ++ k ++ ": " ++ err.Error) err,
              st1)
          else Vars.Set osSetenv rest st1

/-- Method `Vars.String`. -/
def Vars.String (v : Vars) : String :=
  "[" ++ stringsJoin ((Vars.Names v).map (fun k => k ++ "=\"" ++ Vars.index v k ++ "\"")) "," ++
    "]"

/-- The rendering of a list of entries, as the specification words it: `[`,
the entries `NAME="VALUE"` joined by `,`, and `]`. -/
def renderEntries (entries : List (String × String)) : String :=
  "[" ++ ",".intercalate (entries.map (fun kv => kv.1 ++ "=\"" ++ kv.2 ++ "\"")) ++ "]"

/-- The replacement of `osSetenv` in `TestVars_Set_WhenSetenvFails`: it sets
nothing and returns `seterr`. -/
def failingSetenv (seterr : Err) : Environ → String → String → Environ × Err :=
  fun env _ _ => (env, seterr)

example : Vars.Names [("VAR3", "value2"), ("VAR1", "value1"), ("VAR2", "value2")] =
    ["VAR1", "VAR2", "VAR3"] := by decide
example : Vars.String [("VAR3", "value3"), ("VAR1", "value1"), ("VAR2", "value2")] =
    "[VAR1=\"value1\",VAR2=\"value2\",VAR3=\"value3\"]" := by decide
example : Vars.String [] = "[]" := by decide
example : Vars.Set osSetenv [("VAR1", "value1"), ("VAR2", "value2")] [] =
    (.nil, [("VAR1", "value1"), ("VAR2", "value2")]) := by decide
example : errorsIs (Vars.Set (failingSetenv (.errorString 100 "setenv error"))
    [("VAR1", "value1")] []).1 (.errorString 100 "setenv error") = true := by decide

/-! ## Properties of `errors.Is` -/

theorem Err.is_self (e : Err) (h : e ≠ .nil) : e.is e = true := by
  cases e <;> simp [Err.is] at h ⊢

theorem errorsIs_self (e : Err) : errorsIs e e = true := by
  unfold errorsIs
  by_cases h : e = .nil
  · simp [h]
  · simp [h, Err.is_self e h]

theorem errorsIs_eq_is (e t : Err) (he : e ≠ .nil) (ht : t ≠ .nil) :
    errorsIs e t = e.is t := by
  simp [errorsIs, he, ht]

theorem Err.is_nil_left (t : Err) : Err.is .nil t = false := by
  simp [Err.is]

theorem Err.is_of_errorsIs (e t : Err) (ht : t ≠ .nil) (h : errorsIs e t = true) :
    e.is t = true := by
  by_cases he : e = .nil
  · subst he
    simp [errorsIs] at h
    exact absurd h.symm ht
  · rwa [errorsIs_eq_is e t he ht] at h

theorem Err.is_wrapError (msg : String) (e t : Err) (h : e.is t = true) :
    (Err.wrapError msg e).is t = true := by
  simp [Err.is, h]

theorem ErrList.anyIs_ofList (l : List Err) (t : Err) :
    (ErrList.ofList l).anyIs t = l.any (fun e => e.is t) := by
  induction l with
  | nil => simp [ErrList.ofList, ErrList.anyIs]
  | cons e es ih => simp [ErrList.ofList, ErrList.anyIs, ih]

theorem errorsJoin_eq_nil (l : List Err) : errorsJoin l = .nil ↔ ∀ e ∈ l, e = .nil := by
  unfold errorsJoin
  cases hf : l.filter (fun e => decide (e ≠ .nil)) with
  | nil =>
      simp only [true_iff]
      intro e he
      by_contra hne
      have : e ∈ l.filter (fun e => decide (e ≠ .nil)) := by
        simp [List.mem_filter, he, hne]
      rw [hf] at this
      simp at this
  | cons x xs =>
      have hx : x ∈ l.filter (fun e => decide (e ≠ .nil)) := by rw [hf]; simp
      rw [List.mem_filter] at hx
      refine ⟨fun h => Err.noConfusion h, fun h => ?_⟩
      have hxn : x ≠ .nil := by simpa using hx.2
      exact absurd (h x hx.1) hxn

theorem errorsJoin_is (l : List Err) (x t : Err) (hx : x ∈ l) (h : x.is t = true) :
    (errorsJoin l).is t = true := by
  have hxn : x ≠ .nil := by
    rintro rfl
    simp [Err.is] at h
  have hmem : x ∈ l.filter (fun e => decide (e ≠ .nil)) := by
    simp [List.mem_filter, hx, hxn]
  unfold errorsJoin
  cases hf : l.filter (fun e => decide (e ≠ .nil)) with
  | nil => rw [hf] at hmem; simp at hmem
  | cons y ys =>
      rw [hf] at hmem
      have : (ErrList.ofList (y :: ys)).anyIs t = true := by
        rw [ErrList.anyIs_ofList, List.any_eq_true]
        exact ⟨x, hmem, h⟩
      simp [Err.is, this]

theorem errorsJoin_of_ne_nil (l : List Err) (h : ∀ e ∈ l, e ≠ .nil) (hl : l ≠ []) :
    errorsJoin l = .joinError (ErrList.ofList l) := by
  have hf : l.filter (fun e => decide (e ≠ .nil)) = l := by
    rw [List.filter_eq_self]
    intro e he
    simpa using h e he
  unfold errorsJoin
  rw [hf]
  cases l with
  | nil => exact absurd rfl hl
  | cons x xs => rfl

theorem fmtErrorf_ne_nil (s : String) (e : Err) : fmtErrorf s e ≠ .nil := by
  simp [fmtErrorf]

/-! ## The loops of Load in closed form -/

theorem osSetenv_err (env : Environ) (key value : String) :
    (osSetenv env key value).2 = setenvErr key value := by
  unfold setenvErr osSetenv
  by_cases h : setenvValid key value = true <;> simp [h]

theorem Environ.setAll_cons (env : Environ) (kv : String × String)
    (kvs : List (String × String)) :
    env.setAll (kv :: kvs) = Environ.setAll (osSetenv env kv.1 kv.2).1 kvs := rfl

theorem Environ.setAll_append (env : Environ) (as bs : List (String × String)) :
    env.setAll (as ++ bs) = Environ.setAll (env.setAll as) bs := by
  simp [Environ.setAll, List.foldl_append]

theorem scanLoop_formatted (lines : List String) :
    ∀ (env : Environ) (errs : List Err), (∀ text ∈ lines, malformed text = false) →
      scanLoop lines env errs =
        (.returned (errs ++ (assignments lines).map (fun kv => setenvErr kv.1 kv.2)),
          env.setAll (assignments lines)) := by
  induction lines with
  | nil => intro env errs _; simp [scanLoop, assignments, Environ.setAll]
  | cons text rest ih =>
      intro env errs h
      have hrest : ∀ t ∈ rest, malformed t = false := fun t ht => h t (List.mem_cons_of_mem _ ht)
      have htext : malformed text = false := h text (List.mem_cons_self _ _)
      unfold scanLoop
      cases hs : splitLine text with
      | panic msg => simp [malformed, hs] at htext
      | returned o =>
          cases o with
          | none =>
              simp only [ih env errs hrest]
              simp [assignments, hs]
          | some kv =>
              obtain ⟨k, v⟩ := kv
              simp only [ih _ _ hrest]
              simp [assignments, hs, Environ.setAll, osSetenv_err]

theorem scanLoop_returned (lines : List String) :
    ∀ (env env1 : Environ) (errs r : List Err), scanLoop lines env errs = (.returned r, env1) →
      ∀ text ∈ lines, malformed text = false := by
  induction lines with
  | nil => intro _ _ _ _ _ text ht; simp at ht
  | cons t rest ih =>
      intro env env1 errs r h text ht
      unfold scanLoop at h
      cases hs : splitLine t with
      | panic msg => simp [hs] at h
      | returned o =>
          rcases List.mem_cons.mp ht with rfl | hmem
          · simp [malformed, hs]
          · cases o with
            | none =>
                simp only [hs] at h
                exact ih _ _ _ _ h text hmem
            | some kv =>
                obtain ⟨k, v⟩ := kv
                simp only [hs] at h
                exact ih _ _ _ _ h text hmem

theorem loadFile_recording_log (fs : FileSystem) (path : String) (env : Environ)
    (log : List String) : (loadFile (recording fs) path env log).2.2 = log ++ [path] := by
  unfold loadFile recording
  by_cases he : (fs path).2 = .nil
  · simp only [he, ne_eq, not_true_eq_false, if_false]
    rcases hs : scanLoop (fs path).1.lines env [] with ⟨r, env1⟩
    cases r <;> simp
  · simp [he]

theorem loadFile_recording_formatted (fs : FileSystem) (path : String) (env : Environ)
    (log : List String) (h : fileFormatted fs path) :
    loadFile (recording fs) path env log =
      (.returned (fileErr fs path), env.setAll (fileAssignments fs path), log ++ [path]) := by
  unfold loadFile recording fileErr fileAssignments
  by_cases he : (fs path).2 = .nil
  · simp [he, scanLoop_formatted _ env [] (h he)]
  · simp [he, Environ.setAll]

theorem loadFile_recording_returned (fs : FileSystem) (path : String) (env env1 : Environ)
    (log log1 : List String) (e : Err)
    (h : loadFile (recording fs) path env log = (.returned e, env1, log1)) :
    fileFormatted fs path := by
  intro he
  unfold loadFile recording at h
  simp only [he, ne_eq, not_true_eq_false, if_false] at h
  rcases hs : scanLoop (fs path).1.lines env [] with ⟨r, env2⟩
  rw [hs] at h
  cases r with
  | panic msg => simp at h
  | returned errs => exact scanLoop_returned _ _ _ _ _ hs

theorem recordedErrs_cons (fs : FileSystem) (required : Bool) (path : String)
    (rest : List String) :
    recordedErrs fs required (path :: rest) =
      (if fileErr fs path = .nil ∨ tolerated required path (fileErr fs path) = true then []
        else [fmtErrorf path (fileErr fs path)]) ++ recordedErrs fs required rest := by
  unfold recordedErrs
  by_cases h : fileErr fs path = .nil ∨ tolerated required path (fileErr fs path) = true
  · simp [List.filterMap_cons, h]
  · simp [List.filterMap_cons, h]

theorem loadLoop_recording_formatted (fs : FileSystem) (required : Bool) (files : List String) :
    ∀ (env : Environ) (log : List String) (errs : List Err),
      (∀ path ∈ files, fileFormatted fs path) →
      loadLoop (recording fs) required files env log errs =
        (.returned (errs ++ recordedErrs fs required files),
          env.setAll (allAssignments fs files), log ++ files) := by
  induction files with
  | nil => intro env log errs _; simp [loadLoop, recordedErrs, allAssignments, Environ.setAll]
  | cons path rest ih =>
      intro env log errs h
      have hrest : ∀ q ∈ rest, fileFormatted fs q := fun q hq => h q (List.mem_cons_of_mem _ hq)
      have hpath : fileFormatted fs path := h path (List.mem_cons_self _ _)
      have hall : allAssignments fs (path :: rest) =
          fileAssignments fs path ++ allAssignments fs rest := by
        simp [allAssignments]
      unfold loadLoop
      rw [loadFile_recording_formatted fs path env log hpath]
      simp only [ih _ _ _ hrest, recordedErrs_cons, hall, Environ.setAll_append]
      by_cases h1 : fileErr fs path = .nil
      · simp [h1]
      · by_cases h2 : tolerated required path (fileErr fs path) = true
        · have h2c := h2
          unfold tolerated at h2c
          simp [h1, h2, h2c]
        · have h2c := h2
          unfold tolerated at h2c
          simp [h1, h2, h2c]

theorem loadLoop_recording_returned (fs : FileSystem) (required : Bool) (files : List String) :
    ∀ (env env1 : Environ) (log log1 : List String) (errs r : List Err),
      loadLoop (recording fs) required files env log errs = (.returned r, env1, log1) →
      ∀ path ∈ files, fileFormatted fs path := by
  induction files with
  | nil => intro _ _ _ _ _ _ _ path hp; simp at hp
  | cons p rest ih =>
      intro env env1 log log1 errs r h path hp
      unfold loadLoop at h
      rcases hf : loadFile (recording fs) p env log with ⟨res, env2, log2⟩
      rw [hf] at h
      cases res with
      | panic msg => simp at h
      | returned e =>
          have hp0 : fileFormatted fs p := loadFile_recording_returned fs p env env2 log log2 e hf
          rcases List.mem_cons.mp hp with rfl | hmem
          · exact hp0
          · simp only at h
            split at h
            · exact ih _ _ _ _ _ _ h path hmem
            · split at h
              · exact ih _ _ _ _ _ _ h path hmem
              · exact ih _ _ _ _ _ _ h path hmem

theorem loadLoop_recording_prefix (fs : FileSystem) (required : Bool) (files : List String) :
    ∀ (env : Environ) (log : List String) (errs : List Err),
      ∃ opened, opened <+: files ∧
        (loadLoop (recording fs) required files env log errs).2.2 = log ++ opened := by
  induction files with
  | nil => intro env log errs; exact ⟨[], by simp [loadLoop]⟩
  | cons p rest ih =>
      intro env log errs
      have hlog := loadFile_recording_log fs p env log
      unfold loadLoop
      rcases hf : loadFile (recording fs) p env log with ⟨res, env2, log2⟩
      rw [hf] at hlog
      simp only at hlog
      subst hlog
      cases res with
      | panic msg => exact ⟨[p], by simp [List.prefix_cons_inj], by simp⟩
      | returned e =>
          simp only
          have key : ∀ errs1, ∃ opened, opened <+: p :: rest ∧
              (loadLoop (recording fs) required rest env2 (log ++ [p]) errs1).2.2 =
                log ++ opened := by
            intro errs1
            obtain ⟨o, ho, hl⟩ := ih env2 (log ++ [p]) errs1
            exact ⟨p :: o, (List.prefix_cons_inj p).mpr ho, by simp [hl]⟩
          split
          · exact key _
          · split
            · exact key _
            · exact key _

theorem effectiveFiles_eq (files : List String) :
    effectiveFiles files =
      if ".env" ∈ files ∨ "./.env" ∈ files then files else ".env" :: files := by
  unfold effectiveFiles
  by_cases h1 : ".env" ∈ files <;> by_cases h2 : "./.env" ∈ files <;> simp [h1, h2]

theorem dotenvRequired_iff (files : List String) :
    dotenvRequired files = true ↔ files = [] ∨ ".env" ∈ files ∨ "./.env" ∈ files := by
  unfold dotenvRequired
  simp [List.dedup_eq_nil]

theorem Load_recording_formatted (fs : FileSystem) (files : List String) (env : Environ)
    (log : List String) (h : ∀ path ∈ effectiveFiles files, fileFormatted fs path) :
    Load (recording fs) files env log =
      (.returned (errorsJoin (recordedErrs fs (dotenvRequired files) (effectiveFiles files))),
        env.setAll (allAssignments fs (effectiveFiles files)), log ++ effectiveFiles files) := by
  unfold Load
  rw [loadLoop_recording_formatted fs _ _ env log [] h]
  simp

theorem Load_recording_returned (fs : FileSystem) (files : List String) (env env1 : Environ)
    (log log1 : List String) (err : Err)
    (h : Load (recording fs) files env log = (.returned err, env1, log1)) :
    ∀ path ∈ effectiveFiles files, fileFormatted fs path := by
  unfold Load at h
  rcases hl : loadLoop (recording fs) (dotenvRequired files) (effectiveFiles files) env log []
    with ⟨res, env2, log2⟩
  rw [hl] at h
  cases res with
  | panic msg => simp at h
  | returned errs => exact loadLoop_recording_returned fs _ _ _ _ _ _ _ _ hl

theorem Load_recording_prefix (fs : FileSystem) (files : List String) (env : Environ)
    (log : List String) :
    ∃ opened, opened <+: effectiveFiles files ∧
      (Load (recording fs) files env log).2.2 = log ++ opened := by
  obtain ⟨o, ho, hl⟩ :=
    loadLoop_recording_prefix fs (dotenvRequired files) (effectiveFiles files) env log []
  refine ⟨o, ho, ?_⟩
  unfold Load
  rcases hr : loadLoop (recording fs) (dotenvRequired files) (effectiveFiles files) env log []
    with ⟨res, env2, log2⟩
  rw [hr] at hl
  cases res <;> simpa using hl

/-! ## The errors Load records -/

theorem setenvErr_eq (key value : String) :
    setenvErr key value =
      if setenvValid key value = true then .nil else .syscallError "setenv" EINVAL := by
  unfold setenvErr osSetenv
  by_cases h : setenvValid key value = true <;> simp [h]

theorem setenvErr_not_exist (key value : String) :
    (setenvErr key value).is ErrNotExist = false := by
  rw [setenvErr_eq]
  by_cases h : setenvValid key value = true
  · simp [h, Err.is]
  · simp only [h, if_false]
    decide

theorem errorsJoin_is_false (l : List Err) (t : Err) (h : ∀ x ∈ l, x.is t = false)
    (ht : ∀ es, Err.joinError es ≠ t) : (errorsJoin l).is t = false := by
  unfold errorsJoin
  cases hf : l.filter (fun e => decide (e ≠ .nil)) with
  | nil => simp [Err.is]
  | cons y ys =>
      have hany : (ErrList.ofList (y :: ys)).anyIs t = false := by
        rw [ErrList.anyIs_ofList, List.any_eq_false]
        intro x hx
        rw [← hf] at hx
        simp [h x (List.mem_filter.mp hx).1]
      simp [Err.is, hany, ht]

theorem fileErr_eq_nil_iff (fs : FileSystem) (path : String) :
    fileErr fs path = .nil ↔
      (fs path).2 = .nil ∧
        ∀ kv ∈ assignments (fs path).1.lines, setenvValid kv.1 kv.2 = true := by
  unfold fileErr
  by_cases ho : (fs path).2 = .nil
  · simp only [ho, ne_eq, not_true_eq_false, if_false, true_and]
    rw [errorsJoin_eq_nil]
    constructor
    · intro h kv hkv
      have := h (setenvErr kv.1 kv.2) (List.mem_map.mpr ⟨kv, hkv, rfl⟩)
      rw [setenvErr_eq] at this
      by_contra hv
      simp [hv] at this
    · intro h x hx
      obtain ⟨kv, hkv, rfl⟩ := List.mem_map.mp hx
      rw [setenvErr_eq]
      simp [h kv hkv]
  · simp [ho]

theorem fileErr_of_not_open (fs : FileSystem) (path : String) (h : (fs path).2 ≠ .nil) :
    fileErr fs path = (fs path).2 := by
  simp [fileErr, h]

theorem tolerated_of_open (fs : FileSystem) (required : Bool) (path : String)
    (h : (fs path).2 = .nil) : tolerated required path (fileErr fs path) = false := by
  have hne : errorsIs (fileErr fs path) ErrNotExist = false := by
    by_cases hn : fileErr fs path = .nil
    · rw [hn]; decide
    · rw [errorsIs_eq_is _ _ hn (by decide)]
      simp only [fileErr, h, ne_eq, not_true_eq_false, if_false]
      apply errorsJoin_is_false
      · intro x hx
        obtain ⟨kv, _, rfl⟩ := List.mem_map.mp hx
        exact setenvErr_not_exist kv.1 kv.2
      · intro es
        simp [ErrNotExist]
  simp [tolerated, hne]

theorem mem_recordedErrs (fs : FileSystem) (required : Bool) (files : List String) (w : Err) :
    w ∈ recordedErrs fs required files ↔
      ∃ path ∈ files, fileErr fs path ≠ .nil ∧
        tolerated required path (fileErr fs path) = false ∧
        w = fmtErrorf path (fileErr fs path) := by
  unfold recordedErrs
  rw [List.mem_filterMap]
  constructor
  · rintro ⟨path, hp, h⟩
    by_cases hc : fileErr fs path = .nil ∨ tolerated required path (fileErr fs path) = true
    · simp [hc] at h
    · simp only [hc, if_false, Option.some.injEq] at h
      push_neg at hc
      exact ⟨path, hp, hc.1, by simpa using hc.2, h.symm⟩
  · rintro ⟨path, hp, h1, h2, rfl⟩
    exact ⟨path, hp, by simp [h1, h2]⟩

theorem recordedErrs_eq_nil_iff (fs : FileSystem) (required : Bool) (files : List String) :
    recordedErrs fs required files = [] ↔
      ∀ path ∈ files, fileErr fs path = .nil ∨
        tolerated required path (fileErr fs path) = true := by
  rw [List.eq_nil_iff_forall_not_mem]
  constructor
  · intro h path hp
    by_contra hc
    push_neg at hc
    exact h _ ((mem_recordedErrs fs required files _).mpr
      ⟨path, hp, hc.1, by simpa using hc.2, rfl⟩)
  · intro h w hw
    obtain ⟨path, hp, h1, h2, _⟩ := (mem_recordedErrs fs required files w).mp hw
    rcases h path hp with h3 | h3
    · exact h1 h3
    · rw [h2] at h3
      exact Bool.noConfusion h3

theorem recordedErrs_ne_nil (fs : FileSystem) (required : Bool) (files : List String) :
    ∀ w ∈ recordedErrs fs required files, w ≠ .nil := by
  intro w hw
  obtain ⟨path, _, _, _, rfl⟩ := (mem_recordedErrs fs required files w).mp hw
  exact fmtErrorf_ne_nil _ _

theorem errorsIs_join_recorded (l : List Err) (w t : Err) (hw : w ∈ l) (ht : t ≠ .nil)
    (h : w.is t = true) : errorsIs (errorsJoin l) t = true := by
  have hi := errorsJoin_is l w t hw h
  have hn : errorsJoin l ≠ .nil := by
    intro hnil
    rw [hnil] at hi
    simp [Err.is] at hi
  rw [errorsIs_eq_is _ _ hn ht]
  exact hi

/-! ## The environment after a sequence of set operations -/

theorem Environ.lookup_set_same (env : Environ) (key value : String) :
    (env.set key value).lookup key = some value := by
  induction env with
  | nil => simp [Environ.set, Environ.lookup]
  | cons kv rest ih =>
      obtain ⟨k, v⟩ := kv
      by_cases h : k = key
      · simp [Environ.set, Environ.lookup, h]
      · simp [Environ.set, Environ.lookup, h, ih]

theorem Environ.lookup_set_other (env : Environ) (key value name : String) (h : key ≠ name) :
    (env.set key value).lookup name = env.lookup name := by
  induction env with
  | nil => simp [Environ.set, Environ.lookup, h]
  | cons kv rest ih =>
      obtain ⟨k, v⟩ := kv
      by_cases hk : k = key
      · subst hk
        simp [Environ.set, Environ.lookup, h]
      · by_cases hn : k = name
        · subst hn
          simp [Environ.set, Environ.lookup, hk]
        · simp [Environ.set, Environ.lookup, hk, hn, ih]

theorem lookup_osSetenv_same (env : Environ) (key value : String)
    (h : setenvValid key value = true) : (osSetenv env key value).1.lookup key = some value := by
  simp [osSetenv, h, Environ.lookup_set_same]

theorem lookup_osSetenv_other (env : Environ) (key value name : String) (h : key ≠ name) :
    (osSetenv env key value).1.lookup name = env.lookup name := by
  unfold osSetenv
  by_cases hv : setenvValid key value = true
  · simp [hv, Environ.lookup_set_other env key value name h]
  · simp [hv]

theorem lookup_osSetenv_isSome (env : Environ) (key value name : String)
    (h : (env.lookup name).isSome = true) :
    ((osSetenv env key value).1.lookup name).isSome = true := by
  by_cases hk : key = name
  · subst hk
    unfold osSetenv
    by_cases hv : setenvValid key value = true
    · simp [hv, Environ.lookup_set_same]
    · simpa [hv] using h
  · rw [lookup_osSetenv_other env key value name hk]
    exact h

theorem lookup_setAll_other (kvs : List (String × String)) (name : String) :
    ∀ env : Environ, (∀ kv ∈ kvs, kv.1 ≠ name) →
      (env.setAll kvs).lookup name = env.lookup name := by
  induction kvs with
  | nil => intro env _; rfl
  | cons kv rest ih =>
      intro env h
      rw [Environ.setAll_cons, ih _ (fun x hx => h x (List.mem_cons_of_mem _ hx))]
      exact lookup_osSetenv_other env kv.1 kv.2 name (h kv (List.mem_cons_self _ _))

theorem lookup_setAll_last (env : Environ) (before after : List (String × String))
    (name value : String) (hv : setenvValid name value = true)
    (hafter : ∀ kv ∈ after, kv.1 ≠ name) :
    (env.setAll (before ++ (name, value) :: after)).lookup name = some value := by
  rw [Environ.setAll_append, Environ.setAll_cons, lookup_setAll_other after name _ hafter]
  exact lookup_osSetenv_same _ name value hv

theorem lookup_setAll_isSome (kvs : List (String × String)) (name : String) :
    ∀ env : Environ, (env.lookup name).isSome = true →
      ((env.setAll kvs).lookup name).isSome = true := by
  induction kvs with
  | nil => intro env h; exact h
  | cons kv rest ih =>
      intro env h
      rw [Environ.setAll_cons]
      exact ih _ (lookup_osSetenv_isSome env kv.1 kv.2 name h)

theorem lookup_setAll_mem (kvs : List (String × String)) (kv : String × String) :
    ∀ env : Environ, kv ∈ kvs → setenvValid kv.1 kv.2 = true →
      ((env.setAll kvs).lookup kv.1).isSome = true := by
  induction kvs with
  | nil => intro env h; simp at h
  | cons x rest ih =>
      intro env h hv
      rw [Environ.setAll_cons]
      rcases List.mem_cons.mp h with rfl | hmem
      · apply lookup_setAll_isSome
        rw [lookup_osSetenv_same env kv.1 kv.2 hv]
        rfl
      · exact ih _ hmem hv

theorem mem_allAssignments (fs : FileSystem) (files : List String) (path : String)
    (kv : String × String) (hp : path ∈ files) (hopen : (fs path).2 = .nil)
    (hkv : kv ∈ assignments (fs path).1.lines) : kv ∈ allAssignments fs files := by
  unfold allAssignments
  rw [List.mem_flatten]
  exact ⟨fileAssignments fs path, List.mem_map.mpr ⟨path, hp, rfl⟩, by
    simpa [fileAssignments, hopen] using hkv⟩

/-! ## The last assignment of a name -/

theorem exists_last_assignment (l : List (String × String)) (name : String) :
    (∃ kv ∈ l, kv.1 = name) →
      ∃ before value after, l = before ++ (name, value) :: after ∧
        ∀ kv ∈ after, kv.1 ≠ name := by
  induction l with
  | nil => rintro ⟨kv, hkv, _⟩; simp at hkv
  | cons x xs ih =>
      intro h
      by_cases hx : ∃ kv ∈ xs, kv.1 = name
      · obtain ⟨before, value, after, hl, ha⟩ := ih hx
        exact ⟨x :: before, value, after, by simp [hl], ha⟩
      · push_neg at hx
        obtain ⟨kv, hkv, hname⟩ := h
        rcases List.mem_cons.mp hkv with rfl | hmem
        · exact ⟨[], kv.2, xs, by simp [← hname], hx⟩
        · exact absurd hname (hx kv hmem)

theorem exists_last_file (fs : FileSystem) (files : List String) (name : String) :
    (∃ path ∈ files, (fs path).2 = .nil ∧ ∃ kv ∈ assignments (fs path).1.lines, kv.1 = name) →
      ∃ pre q post, files = pre ++ q :: post ∧ (fs q).2 = .nil ∧
        (∃ kv ∈ assignments (fs q).1.lines, kv.1 = name) ∧
        ∀ p ∈ post, (fs p).2 = .nil → ∀ kv ∈ assignments (fs p).1.lines, kv.1 ≠ name := by
  induction files with
  | nil => rintro ⟨path, hp, _⟩; simp at hp
  | cons x xs ih =>
      intro h
      by_cases hx : ∃ path ∈ xs, (fs path).2 = .nil ∧
          ∃ kv ∈ assignments (fs path).1.lines, kv.1 = name
      · obtain ⟨pre, q, post, hl, ho, hk, hpost⟩ := ih hx
        exact ⟨x :: pre, q, post, by simp [hl], ho, hk, hpost⟩
      · obtain ⟨path, hp, ho, hk⟩ := h
        rcases List.mem_cons.mp hp with rfl | hmem
        · refine ⟨[], path, xs, by simp, ho, hk, ?_⟩
          intro p hp' hop kv hkv hname
          exact hx ⟨p, hp', hop, kv, hkv, hname⟩
        · exact absurd ⟨path, hmem, ho, hk⟩ hx

theorem allAssignments_append (fs : FileSystem) (as bs : List String) :
    allAssignments fs (as ++ bs) = allAssignments fs as ++ allAssignments fs bs := by
  simp [allAssignments]

theorem allAssignments_cons (fs : FileSystem) (path : String) (rest : List String) :
    allAssignments fs (path :: rest) = fileAssignments fs path ++ allAssignments fs rest := by
  simp [allAssignments]

theorem allAssignments_other (fs : FileSystem) (files : List String) (name : String)
    (h : ∀ p ∈ files, (fs p).2 = .nil → ∀ kv ∈ assignments (fs p).1.lines, kv.1 ≠ name) :
    ∀ kv ∈ allAssignments fs files, kv.1 ≠ name := by
  intro kv hkv
  unfold allAssignments at hkv
  rw [List.mem_flatten] at hkv
  obtain ⟨l, hl, hmem⟩ := hkv
  obtain ⟨p, hp, rfl⟩ := List.mem_map.mp hl
  unfold fileAssignments at hmem
  by_cases ho : (fs p).2 = .nil
  · simp only [ho, if_true] at hmem
    exact h p hp ho kv hmem
  · simp [ho] at hmem

theorem allAssignments_valid (fs : FileSystem) (files : List String)
    (h : ∀ p ∈ files, (fs p).2 = .nil →
      ∀ kv ∈ assignments (fs p).1.lines, setenvValid kv.1 kv.2 = true) :
    ∀ kv ∈ allAssignments fs files, setenvValid kv.1 kv.2 = true := by
  intro kv hkv
  unfold allAssignments at hkv
  rw [List.mem_flatten] at hkv
  obtain ⟨l, hl, hmem⟩ := hkv
  obtain ⟨p, hp, rfl⟩ := List.mem_map.mp hl
  unfold fileAssignments at hmem
  by_cases ho : (fs p).2 = .nil
  · simp only [ho, if_true] at hmem
    exact h p hp ho kv hmem
  · simp [ho] at hmem

theorem lookup_allAssignments_last (fs : FileSystem) (env : Environ)
    (pre post : List String) (path name value : String)
    (before after : List (String × String)) (hopen : (fs path).2 = .nil)
    (hsplit : assignments (fs path).1.lines = before ++ (name, value) :: after)
    (hvalid : setenvValid name value = true) (hafter : ∀ kv ∈ after, kv.1 ≠ name)
    (hpost : ∀ q ∈ post, (fs q).2 = .nil → ∀ kv ∈ assignments (fs q).1.lines, kv.1 ≠ name) :
    (env.setAll (allAssignments fs (pre ++ path :: post))).lookup name = some value := by
  have hfa : fileAssignments fs path = before ++ (name, value) :: after := by
    simp [fileAssignments, hopen, hsplit]
  have hall : allAssignments fs (pre ++ path :: post) =
      (allAssignments fs pre ++ before) ++ (name, value) :: (after ++ allAssignments fs post) := by
    rw [allAssignments_append, allAssignments_cons, hfa]
    simp
  rw [hall]
  apply lookup_setAll_last _ _ _ _ _ hvalid
  intro kv hkv
  rcases List.mem_append.mp hkv with h1 | h1
  · exact hafter kv h1
  · exact allAssignments_other fs post name hpost kv h1

/-! ## Properties of Parse and Override -/

/-- C1: for every name, every lookup in which the name is not set, and every
conversion function, `Parse` returns the zero value of `T` and the error
`ParseError{VariableName: name, Err: ErrNotSet}`; the error is not nil, and the
conversion function is not called (the state it closes over is untouched,
whatever the function). -/
theorem Parse_not_set {σ T : Type} [Inhabited T] (osLookupEnv : String → Option String)
    (name : String) (cnv : ConversionFunc σ T) (s : σ) (h : osLookupEnv name = none) :
    Parse osLookupEnv name cnv s = ((default, .parseError name ErrNotSet), s) ∧
      (Parse osLookupEnv name cnv s).1.2 ≠ .nil := by
  simp [Parse, h]

theorem Parse_not_set_witness :
    (fun _ => none : String → Option String) "NOT_SET" = none ∧
      Parse (fun _ => none) "NOT_SET" digitsCounting 0 =
        (((0 : Int), .parseError "NOT_SET" ErrNotSet), 0) :=
  ⟨rfl, (Parse_not_set (fun _ => none) "NOT_SET" digitsCounting 0 rfl).1⟩

/-- C2: when the name is set to `v` and the conversion function fails on `v`
with the error `e`, `Parse` returns the zero value of `T` and the error
`ParseError{VariableName: name, Err: InvalidValueError{Value: v, Err: e}}`, and
`errors.Is` of that error and `InvalidValueError{Value: v, Err: e}` holds. -/
theorem Parse_conversion_fails {σ T : Type} [Inhabited T]
    (osLookupEnv : String → Option String) (name v : String) (cnv : ConversionFunc σ T)
    (s s1 : σ) (r : T) (e : Err) (hset : osLookupEnv name = some v)
    (hcnv : cnv v s = ((r, e), s1)) (he : e ≠ .nil) :
    Parse osLookupEnv name cnv s =
        ((default, .parseError name (.invalidValueError v e)), s1) ∧
      errorsIs (Parse osLookupEnv name cnv s).1.2 (.invalidValueError v e) = true := by
  have hp : Parse osLookupEnv name cnv s =
      ((default, .parseError name (.invalidValueError v e)), s1) := by
    simp [Parse, hset, hcnv, he]
  refine ⟨hp, ?_⟩
  rw [hp]
  simp [errorsIs, Err.is]

theorem Parse_conversion_fails_witness :
    Parse (fun _ => some "not-a-number") "NOT_A_NUMBER" digitsCounting 0 =
        (((0 : Int), .parseError "NOT_A_NUMBER"
          (.invalidValueError "not-a-number" (.errorString 100 "invalid syntax"))), 1) ∧
      errorsIs (Parse (fun _ => some "not-a-number") "NOT_A_NUMBER" digitsCounting 0).1.2
        (.invalidValueError "not-a-number" (.errorString 100 "invalid syntax")) = true :=
  Parse_conversion_fails (fun _ => some "not-a-number") "NOT_A_NUMBER" "not-a-number"
    digitsCounting 0 1 0 (.errorString 100 "invalid syntax") rfl (by decide) (by decide)

/-- C3: `Parse` returns a nil error if and only if the name is set and the
conversion function returns a nil error on its value; and whenever the name is
set to `v` and the conversion succeeds on `v`, the value returned is the
conversion function's result for `v`. -/
theorem Parse_nil_iff {σ T : Type} [Inhabited T] (osLookupEnv : String → Option String)
    (name : String) (cnv : ConversionFunc σ T) (s : σ) :
    ((Parse osLookupEnv name cnv s).1.2 = .nil ↔
        ∃ v, osLookupEnv name = some v ∧ (cnv v s).1.2 = .nil) ∧
      (∀ v, osLookupEnv name = some v → (cnv v s).1.2 = .nil →
        (Parse osLookupEnv name cnv s).1.1 = (cnv v s).1.1 ∧
          (Parse osLookupEnv name cnv s).2 = (cnv v s).2) := by
  unfold Parse
  cases hl : osLookupEnv name with
  | none => simp
  | some v =>
      rcases hc : cnv v s with ⟨⟨r, e⟩, s1⟩
      by_cases he : e = .nil <;> simp [hc, he]

example : Parse (fun _ => some "123") "VAR" digitsCounting 0 = (((123 : Int), .nil), 1) := by
  decide

/-- C4: whenever `Override` returns a nil error, the destination afterwards
holds the value `Parse` produced for the name; the changed flag is true exactly
when that value differs from the destination before the call; and when the two
are equal the flag is false and no store to the destination is executed. -/
theorem Override_nil {σ T : Type} [Inhabited T] [DecidableEq T] (dest : T)
    (osLookupEnv : String → Option String) (name : String) (cnv : ConversionFunc σ T)
    (s : σ) (h : (Override dest osLookupEnv name cnv s).1.err = .nil) :
    (Override dest osLookupEnv name cnv s).1.dest dest = (Parse osLookupEnv name cnv s).1.1 ∧
      ((Override dest osLookupEnv name cnv s).1.changed = true ↔
        (Parse osLookupEnv name cnv s).1.1 ≠ dest) ∧
      ((Parse osLookupEnv name cnv s).1.1 = dest →
        (Override dest osLookupEnv name cnv s).1.changed = false ∧
          (Override dest osLookupEnv name cnv s).1.stored = none) := by
  unfold Override at h ⊢
  rcases hp : Parse osLookupEnv name cnv s with ⟨⟨v, err⟩, s1⟩
  rw [hp] at h
  by_cases hc : err = .nil ∧ dest ≠ v
  · have hvd : ¬ v = dest := fun hv => hc.2 hv.symm
    simp only [if_pos hc]
    simp [Overridden.dest, hvd]
  · simp only [if_neg hc] at h ⊢
    have hv : v = dest := by
      by_contra hne
      exact hc ⟨h, fun hd => hne hd.symm⟩
    simp [Overridden.dest, hv]

theorem Override_nil_witness :
    (Override (42 : Int) (fun _ => some "123") "VAR" digitsCounting 0).1.dest 42 = 123 ∧
      (Override (42 : Int) (fun _ => some "123") "VAR" digitsCounting 0).1.changed = true ∧
      (Override (123 : Int) (fun _ => some "123") "VAR" digitsCounting 0).1.stored = none :=
  ⟨(Override_nil (42 : Int) (fun _ => some "123") "VAR" digitsCounting 0 (by decide)).1,
    by decide, by decide⟩

/-- C5: whenever `Parse` fails for the name (not set, or conversion failure),
`Override` executes no store to the destination, which therefore keeps its
value, returns changed = false, and returns the error `Parse` returned. -/
theorem Override_parse_fails {σ T : Type} [Inhabited T] [DecidableEq T] (dest : T)
    (osLookupEnv : String → Option String) (name : String) (cnv : ConversionFunc σ T)
    (s : σ) (h : (Parse osLookupEnv name cnv s).1.2 ≠ .nil) :
    (Override dest osLookupEnv name cnv s).1.stored = none ∧
      (Override dest osLookupEnv name cnv s).1.dest dest = dest ∧
      (Override dest osLookupEnv name cnv s).1.changed = false ∧
      (Override dest osLookupEnv name cnv s).1.err = (Parse osLookupEnv name cnv s).1.2 := by
  unfold Override
  rcases hp : Parse osLookupEnv name cnv s with ⟨⟨v, err⟩, s1⟩
  rw [hp] at h
  have hne : err ≠ .nil := h
  simp [hne, Overridden.dest]

theorem Override_parse_fails_witness :
    (Override (42 : Int) (fun _ => none) "VAR" digitsCounting 0).1.dest 42 = 42 ∧
      (Override (42 : Int) (fun _ => none) "VAR" digitsCounting 0).1.changed = false ∧
      (Override (42 : Int) (fun _ => none) "VAR" digitsCounting 0).1.err =
        .parseError "VAR" ErrNotSet :=
  have h := Override_parse_fails (42 : Int) (fun _ => none) "VAR" digitsCounting 0 (by decide)
  ⟨h.2.1, h.2.2.1, h.2.2.2⟩

/-! ## Properties of Load -/

/-- The paths `Load` opens, in the order of the calls: they are always an
initial part of `.env` followed by `files` when `files` holds neither `.env`
nor `./.env` (of `.env` alone for no argument), and of `files` otherwise; they
are the whole of that sequence in every call that returns; and the call returns
exactly when no file that opens holds a malformed line. -/
theorem Load_opens_effective_files (fs : FileSystem) (files : List String) (env : Environ) :
    (files = [] → effectiveFiles files = [".env"]) ∧
      (∃ opened, opened <+: (if ".env" ∈ files ∨ "./.env" ∈ files then files
          else ".env" :: files) ∧
        (Load (recording fs) files env []).2.2 = opened) ∧
      (∀ err env1 filesLoaded,
        Load (recording fs) files env [] = (.returned err, env1, filesLoaded) →
          filesLoaded = if ".env" ∈ files ∨ "./.env" ∈ files then files else ".env" :: files) ∧
      ((∃ err, (Load (recording fs) files env []).1 = .returned err) ↔
        ∀ path ∈ (if ".env" ∈ files ∨ "./.env" ∈ files then files else ".env" :: files),
          fileFormatted fs path) := by
  rw [← effectiveFiles_eq]
  refine ⟨?_, ?_, ?_, ?_⟩
  · intro h
    simp [h, effectiveFiles]
  · obtain ⟨o, ho, hl⟩ := Load_recording_prefix fs files env []
    exact ⟨o, ho, by simpa using hl⟩
  · intro err env1 filesLoaded h
    have hf := Load_recording_returned fs files env env1 [] filesLoaded err h
    rw [Load_recording_formatted fs files env [] hf] at h
    simp only [List.nil_append, Prod.mk.injEq] at h
    exact h.2.2.symm
  · constructor
    · rintro ⟨err, h⟩
      rcases hl : Load (recording fs) files env [] with ⟨res, env1, log1⟩
      rw [hl] at h
      simp only at h
      subst h
      exact Load_recording_returned fs files env env1 [] log1 err hl
    · intro hf
      exact ⟨_, by rw [Load_recording_formatted fs files env [] hf]⟩

example : Load (recording fsNoDotenv) ["test.env"] [("VAR1", "env-value")] [] =
    (.returned .nil, [("VAR1", "loaded-value-1"), ("VAR2", "loaded-value-2")],
      [".env", "test.env"]) := by decide

/-- C6 (failing input): `Load("test.env")`, where `.env` holds the line `FOO`,
panics in `loadFile(".env")` at `parts[1]`; the only path it has opened is
`.env`, and `test.env`, the second path of the sequence `.env`, `test.env`, is
never opened. -/
theorem Load_malformed_dotenv_stops :
    Load (recording fsMalformedDotenv) ["test.env"] [] [] =
        (.panic "runtime error: index out of range [1] with length 1", [], [".env"]) ∧
      effectiveFiles ["test.env"] = [".env", "test.env"] := by
  decide

/-- C7: when opening the default file (`.env` or `./.env`) fails with an
error matching `fs.ErrNotExist`, the iteration of `Load` for that file appends
the error, wrapped with the path, to `errs` exactly when the list of the caller
is empty or holds `.env` or `./.env`, and appends nothing otherwise.  So with a
missing `.env`, `Load()` and `Load(".env")` return an error matching the
not-exist error, and `Load("test.env")` returns nil when `test.env` opens, has
no malformed line and all its set operations succeed. -/
theorem Load_dotenv_not_exist :
    (∀ (φ : Type) (newFileReader : NewFileReader φ) (files rest : List String) (name : String)
        (env : Environ) (st st1 : φ) (errs : List Err) (file : FileReader) (e : Err),
        (name = ".env" ∨ name = "./.env") → newFileReader name st = ((file, e), st1) →
        e ≠ .nil → errorsIs e ErrNotExist = true →
        loadLoop newFileReader (dotenvRequired files) (name :: rest) env st errs =
          loadLoop newFileReader (dotenvRequired files) rest env st1
            (if files = [] ∨ ".env" ∈ files ∨ "./.env" ∈ files then
              errs ++ [fmtErrorf name e] else errs)) ∧
      (∀ (fs : FileSystem) (env : Environ) (e : Err), (fs ".env").2 = e → e ≠ .nil →
        errorsIs e ErrNotExist = true →
        (∀ files, files = [] ∨ files = [".env"] →
          Load (recording fs) files env [] =
              (.returned (.joinError (.cons (fmtErrorf ".env" e) .nil)), env, [".env"]) ∧
            errorsIs (.joinError (.cons (fmtErrorf ".env" e) .nil)) ErrNotExist = true ∧
            errorsIs (.joinError (.cons (fmtErrorf ".env" e) .nil)) e = true) ∧
        ((fs "test.env").2 = .nil → fileFormatted fs "test.env" →
          (∀ kv ∈ assignments (fs "test.env").1.lines, setenvValid kv.1 kv.2 = true) →
          Load (recording fs) ["test.env"] env [] =
            (.returned .nil, env.setAll (assignments (fs "test.env").1.lines),
              [".env", "test.env"]))) := by
  refine ⟨?_, ?_⟩
  · intro φ nfr files rest name env st st1 errs file e hname hopen he hne
    have hn : (name == ".env" || name == "./.env") = true := by
      rcases hname with rfl | rfl <;> decide
    have hlf : loadFile nfr name env st = (.returned e, env, st1) := by
      simp [loadFile, hopen, he]
    rw [loadLoop, hlf]
    simp only [he, if_false, hn, hne, Bool.and_true]
    by_cases hr : dotenvRequired files = true
    · have := (dotenvRequired_iff files).mp hr
      simp [hr, this]
    · have hr2 : ¬ (files = [] ∨ ".env" ∈ files ∨ "./.env" ∈ files) :=
        fun h => hr ((dotenvRequired_iff files).mpr h)
      simp only [Bool.not_eq_true] at hr
      simp [hr, hr2]
  · intro fs env e hfs he hne
    have hfe : fileErr fs ".env" = e := by simp [fileErr, hfs, he]
    have hfmt : fileFormatted fs ".env" := fun h => absurd (hfs ▸ h) he
    have hfa : fileAssignments fs ".env" = [] := by simp [fileAssignments, hfs, he]
    have hi : e.is ErrNotExist = true := Err.is_of_errorsIs e ErrNotExist (by decide) hne
    refine ⟨?_, ?_⟩
    · intro files hfiles
      have heff : effectiveFiles files = [".env"] := by
        rcases hfiles with rfl | rfl <;> decide
      have hreq : dotenvRequired files = true := by
        rcases hfiles with rfl | rfl <;> decide
      refine ⟨?_, ?_, ?_⟩
      · rw [Load_recording_formatted fs files env [] (by
          rw [heff]; intro p hp; simp at hp; subst hp; exact hfmt)]
        rw [heff, hreq]
        simp [recordedErrs, hfe, he, tolerated, allAssignments, hfa, Environ.setAll,
          errorsJoin, fmtErrorf, ErrList.ofList]
      · rw [errorsIs_eq_is _ _ (by simp) (by decide)]
        simp [Err.is, ErrList.anyIs, fmtErrorf, hi]
      · rw [errorsIs_eq_is _ _ (by simp) he]
        simp [Err.is, ErrList.anyIs, fmtErrorf, Err.is_self e he]
    · intro hopen hformatted hvalid
      have hfe2 : fileErr fs "test.env" = .nil := by
        simp only [fileErr, hopen, ne_eq, not_true_eq_false, if_false]
        rw [errorsJoin_eq_nil]
        intro x hx
        rw [List.mem_map] at hx
        obtain ⟨kv, hkv, rfl⟩ := hx
        simp [setenvErr, osSetenv, hvalid kv hkv]
      have heff : effectiveFiles ["test.env"] = [".env", "test.env"] := by decide
      have hreq : dotenvRequired ["test.env"] = false := by decide
      rw [Load_recording_formatted fs ["test.env"] env [] (by
        rw [heff]
        intro p hp
        simp at hp
        rcases hp with rfl | rfl
        · exact hfmt
        · exact hformatted)]
      rw [heff, hreq]
      have htol : tolerated false ".env" e = true := by
        simp [tolerated, hne]
      simp [recordedErrs, hfe, hfe2, htol, allAssignments, fileAssignments, hopen, hfs, he,
        errorsJoin]

theorem Load_dotenv_not_exist_witness :
    Load (recording fsNoDotenv) [] [("VAR1", "env-value")] [] =
        (.returned (.joinError (.cons (fmtErrorf ".env" ErrNotExist) .nil)),
          [("VAR1", "env-value")], [".env"]) ∧
      errorsIs (.joinError (.cons (fmtErrorf ".env" ErrNotExist) .nil)) ErrNotExist = true ∧
      Load (recording fsNoDotenv) ["test.env"] [("VAR1", "env-value")] [] =
        (.returned .nil, [("VAR1", "loaded-value-1"), ("VAR2", "loaded-value-2")],
          [".env", "test.env"]) :=
  have h := Load_dotenv_not_exist.2 fsNoDotenv [("VAR1", "env-value")] ErrNotExist rfl
    (by decide) (by decide)
  ⟨(h.1 [] (Or.inl rfl)).1, (h.1 [] (Or.inl rfl)).2.1, by decide⟩

/-- In every call of `Load` that returns, whatever files fail to open and
whatever set operations fail, every path of the effective list has been opened
once, in order, and the environment is the one left by the set operations of
all the files that open, in order; so every variable a file that opens sets
with success is set afterwards. -/
theorem Load_continues_after_errors (fs : FileSystem) (files : List String)
    (env env1 : Environ) (err : Err) (filesLoaded : List String)
    (h : Load (recording fs) files env [] = (.returned err, env1, filesLoaded)) :
    filesLoaded = effectiveFiles files ∧
      env1 = env.setAll (allAssignments fs (effectiveFiles files)) ∧
      ∀ path ∈ effectiveFiles files, (fs path).2 = .nil →
        ∀ kv ∈ assignments (fs path).1.lines, setenvValid kv.1 kv.2 = true →
          ∃ value, env1.lookup kv.1 = some value := by
  have hf := Load_recording_returned fs files env env1 [] filesLoaded err h
  rw [Load_recording_formatted fs files env [] hf] at h
  simp only [List.nil_append, Prod.mk.injEq] at h
  obtain ⟨_, henv, hlog⟩ := h
  refine ⟨hlog.symm, henv.symm, ?_⟩
  intro path hp hopen kv hkv hv
  rw [← henv]
  exact Option.isSome_iff_exists.mp
    (lookup_setAll_mem _ kv env (mem_allAssignments fs _ path kv hp hopen hkv) hv)

theorem Load_continues_after_errors_witness :
    Load (recording fsDotenvError) ["test.env"] [("VAR1", "env-value")] [] =
        (.returned (.joinError (.cons (.wrapError ".env: error reading .env"
            (.errorString 101 "error reading .env")) .nil)),
          [("VAR1", "loaded-value-1"), ("VAR2", "loaded-value-2")], [".env", "test.env"]) ∧
      [".env", "test.env"] = effectiveFiles ["test.env"] :=
  have h : Load (recording fsDotenvError) ["test.env"] [("VAR1", "env-value")] [] =
      (.returned (.joinError (.cons (.wrapError ".env: error reading .env"
          (.errorString 101 "error reading .env")) .nil)),
        [("VAR1", "loaded-value-1"), ("VAR2", "loaded-value-2")], [".env", "test.env"]) := by
    decide
  ⟨h, (Load_continues_after_errors fsDotenvError ["test.env"] _ _ _ _ h).1⟩

/-- C8 (failing input): `Load("a.env", "b.env")`, where `a.env` holds the line
`export`, panics in `loadFile("a.env")` at `parts[1]`: `b.env`, which opens, is
never attempted and its variable `B` is not set, although `b.env` is in the
effective list `.env`, `a.env`, `b.env`. -/
theorem Load_malformed_file_aborts :
    Load (recording fsMalformedFirst) ["a.env", "b.env"] [] [] =
        (.panic "runtime error: index out of range [1] with length 1", [("A", "1")],
          [".env", "a.env"]) ∧
      effectiveFiles ["a.env", "b.env"] = [".env", "a.env", "b.env"] ∧
      (fsMalformedFirst "b.env").2 = .nil ∧
      assignments (fsMalformedFirst "b.env").1.lines = [("B", "2")] ∧
      Environ.lookup (Load (recording fsMalformedFirst) ["a.env", "b.env"] [] []).2.1 "B" =
        none := by
  decide

/-- What a call of `Load` that returns gives: the error `err` is `errors.Join`
of the errors recorded for the files of the effective list, in the order of that
list, each being the error of `loadFile` for a path wrapped as `path: error`.
`err` is nil if and only if none was recorded, that is, every file either opens
with all its set operations succeeding, or is the default file that is not
required and fails to open with an error matching `fs.ErrNotExist`.  Otherwise
`errors.Is(err, e)` holds for every recorded error, for every error of opening
a file that is not tolerated, and for the error of every failing set
operation. -/
theorem Load_returns_joined_errors (fs : FileSystem) (files : List String)
    (env env1 : Environ) (err : Err) (filesLoaded : List String)
    (h : Load (recording fs) files env [] = (.returned err, env1, filesLoaded)) :
    err = errorsJoin (recordedErrs fs (dotenvRequired files) (effectiveFiles files)) ∧
      recordedErrs fs (dotenvRequired files) (effectiveFiles files) =
        (effectiveFiles files).filterMap (fun path =>
          if fileErr fs path = .nil ∨
              tolerated (dotenvRequired files) path (fileErr fs path) = true then none
          else some (.wrapError (path ++ ": " ++ (fileErr fs path).Error) (fileErr fs path))) ∧
      (err = .nil ↔ recordedErrs fs (dotenvRequired files) (effectiveFiles files) = []) ∧
      (err = .nil ↔ ∀ path ∈ effectiveFiles files,
        ((fs path).2 = .nil ∧
          ∀ kv ∈ assignments (fs path).1.lines, setenvValid kv.1 kv.2 = true) ∨
        ((fs path).2 ≠ .nil ∧ dotenvRequired files = false ∧
          (path = ".env" ∨ path = "./.env") ∧ errorsIs (fs path).2 ErrNotExist = true)) ∧
      (err ≠ .nil → err = .joinError (ErrList.ofList
        (recordedErrs fs (dotenvRequired files) (effectiveFiles files)))) ∧
      (∀ w ∈ recordedErrs fs (dotenvRequired files) (effectiveFiles files),
        errorsIs err w = true) ∧
      (∀ path ∈ effectiveFiles files, (fs path).2 ≠ .nil →
        tolerated (dotenvRequired files) path (fs path).2 = false →
        fmtErrorf path (fs path).2 ∈
            recordedErrs fs (dotenvRequired files) (effectiveFiles files) ∧
          errorsIs err (fs path).2 = true) ∧
      (∀ path ∈ effectiveFiles files, (fs path).2 = .nil →
        ∀ kv ∈ assignments (fs path).1.lines, setenvValid kv.1 kv.2 = false →
        fmtErrorf path (fileErr fs path) ∈
            recordedErrs fs (dotenvRequired files) (effectiveFiles files) ∧
          errorsIs err (setenvErr kv.1 kv.2) = true) := by
  have hf := Load_recording_returned fs files env env1 [] filesLoaded err h
  rw [Load_recording_formatted fs files env [] hf] at h
  simp only [List.nil_append, Prod.mk.injEq, Result.returned.injEq] at h
  obtain ⟨herr, _, _⟩ := h
  have hnil : err = .nil ↔
      recordedErrs fs (dotenvRequired files) (effectiveFiles files) = [] := by
    rw [← herr, errorsJoin_eq_nil]
    constructor
    · intro hall
      rw [List.eq_nil_iff_forall_not_mem]
      intro w hw
      exact recordedErrs_ne_nil fs _ _ w hw (hall w hw)
    · intro hnil w hw
      rw [hnil] at hw
      simp at hw
  refine ⟨herr.symm, rfl, hnil, ?_, ?_, ?_, ?_, ?_⟩
  · rw [hnil, recordedErrs_eq_nil_iff]
    constructor
    · intro hall path hp
      by_cases ho : (fs path).2 = .nil
      · left
        rcases hall path hp with h1 | h1
        · exact (fileErr_eq_nil_iff fs path).mp h1
        · rw [tolerated_of_open fs _ path ho] at h1
          exact Bool.noConfusion h1
      · right
        rcases hall path hp with h1 | h1
        · exact absurd ((fileErr_eq_nil_iff fs path).mp h1).1 ho
        · rw [fileErr_of_not_open fs path ho] at h1
          simp only [tolerated, Bool.and_eq_true, Bool.not_eq_true', Bool.or_eq_true,
            beq_iff_eq] at h1
          exact ⟨ho, h1.1.1, h1.1.2, h1.2⟩
    · intro hall path hp
      rcases hall path hp with h1 | ⟨ho, hr, hname, hne⟩
      · exact Or.inl ((fileErr_eq_nil_iff fs path).mpr h1)
      · right
        rw [fileErr_of_not_open fs path ho]
        simp only [tolerated, Bool.and_eq_true, Bool.not_eq_true', Bool.or_eq_true,
          beq_iff_eq]
        exact ⟨⟨hr, hname⟩, hne⟩
  · intro hne
    rw [← herr]
    apply errorsJoin_of_ne_nil _ (recordedErrs_ne_nil fs _ _)
    intro hl
    exact hne (hnil.mpr hl)
  · intro w hw
    rw [← herr]
    have hwn := recordedErrs_ne_nil fs _ _ w hw
    exact errorsIs_join_recorded _ w w hw hwn (Err.is_self w hwn)
  · intro path hp ho htol
    have hfe := fileErr_of_not_open fs path ho
    have hmem : fmtErrorf path (fs path).2 ∈
        recordedErrs fs (dotenvRequired files) (effectiveFiles files) :=
      (mem_recordedErrs fs _ _ _).mpr ⟨path, hp, by rw [hfe]; exact ho, by rw [hfe]; exact htol,
        by rw [hfe]⟩
    refine ⟨hmem, ?_⟩
    rw [← herr]
    exact errorsIs_join_recorded _ _ _ hmem ho
      (Err.is_wrapError _ _ _ (Err.is_self _ ho))
  · intro path hp ho kv hkv hv
    have hse : setenvErr kv.1 kv.2 = .syscallError "setenv" EINVAL := by
      rw [setenvErr_eq]; simp [hv]
    have hsn : setenvErr kv.1 kv.2 ≠ .nil := by rw [hse]; simp
    have hfis : (fileErr fs path).is (setenvErr kv.1 kv.2) = true := by
      simp only [fileErr, ho, ne_eq, not_true_eq_false, if_false]
      exact errorsJoin_is _ (setenvErr kv.1 kv.2) _ (List.mem_map.mpr ⟨kv, hkv, rfl⟩)
        (Err.is_self _ hsn)
    have hfn : fileErr fs path ≠ .nil := by
      intro hnil'
      rw [hnil'] at hfis
      simp [Err.is] at hfis
    have hmem : fmtErrorf path (fileErr fs path) ∈
        recordedErrs fs (dotenvRequired files) (effectiveFiles files) :=
      (mem_recordedErrs fs _ _ _).mpr ⟨path, hp, hfn, tolerated_of_open fs _ path ho, rfl⟩
    refine ⟨hmem, ?_⟩
    rw [← herr]
    exact errorsIs_join_recorded _ _ _ hmem hsn (Err.is_wrapError _ _ _ hfis)

theorem Load_returns_joined_errors_witness :
    Load (recording fsBothFail) ["test.env"] [] [] =
        (.returned (.joinError (.cons
            (.wrapError ".env: error reading .env" (.errorString 101 "error reading .env"))
            (.cons (.wrapError "test.env: error reading test.env"
              (.errorString 102 "error reading test.env")) .nil))),
          [], [".env", "test.env"]) ∧
      errorsIs (.joinError (.cons
          (.wrapError ".env: error reading .env" (.errorString 101 "error reading .env"))
          (.cons (.wrapError "test.env: error reading test.env"
            (.errorString 102 "error reading test.env")) .nil)))
        (fsBothFail "test.env").2 = true :=
  have h : Load (recording fsBothFail) ["test.env"] [] [] =
      (.returned (.joinError (.cons
          (.wrapError ".env: error reading .env" (.errorString 101 "error reading .env"))
          (.cons (.wrapError "test.env: error reading test.env"
            (.errorString 102 "error reading test.env")) .nil))),
        [], [".env", "test.env"]) := by decide
  ⟨h, ((Load_returns_joined_errors fsBothFail ["test.env"] [] [] _ _ h).2.2.2.2.2.2.1
    "test.env" (by decide) (by decide) (by decide)).2⟩

/-- C9 (failing input): `Load()` where `.env` opens and holds the single line
`FOO`.  No error is recorded: the file opens, and it makes no set operation, so
none fails.  Yet `Load` does not return nil: it does not return, `loadFile`
panics at `parts[1]`.  The same holds of `Load("test.env")`, where `test.env`
opens and is well formed. -/
theorem Load_panics_with_no_error_recorded :
    (fsMalformedDotenv ".env").2 = .nil ∧
      assignments (fsMalformedDotenv ".env").1.lines = [] ∧
      recordedErrs fsMalformedDotenv (dotenvRequired []) (effectiveFiles []) = [] ∧
      Load (recording fsMalformedDotenv) [] [] [] =
        (.panic "runtime error: index out of range [1] with length 1", [], [".env"]) ∧
      recordedErrs fsMalformedDotenv (dotenvRequired ["test.env"])
        (effectiveFiles ["test.env"]) = [] ∧
      (Load (recording fsMalformedDotenv) ["test.env"] [] []).1 =
        .panic "runtime error: index out of range [1] with length 1" := by
  decide

/-- C10: after a call of `Load` that returns and in which every set operation
succeeds, a name assigned in a file that opens has the value of its last
assignment in the last file of the effective list that opens and assigns it:
whenever the effective list is `pre`, `path`, `post`, the file at `path` opens
and its last assignment of `name` gives `value`, and no file of `post` that
opens assigns `name`, the environment has `name` set to `value`; and every name
assigned in a file of the effective list that opens has such a last file and
last assignment. -/
theorem Load_last_assignment_wins (fs : FileSystem) (files : List String)
    (env env1 : Environ) (err : Err) (filesLoaded : List String)
    (h : Load (recording fs) files env [] = (.returned err, env1, filesLoaded))
    (hset : ∀ path ∈ effectiveFiles files, (fs path).2 = .nil →
      ∀ kv ∈ assignments (fs path).1.lines, setenvValid kv.1 kv.2 = true) :
    (∀ (pre post : List String) (path name value : String)
        (before after : List (String × String)),
        effectiveFiles files = pre ++ path :: post → (fs path).2 = .nil →
        assignments (fs path).1.lines = before ++ (name, value) :: after →
        (∀ kv ∈ after, kv.1 ≠ name) →
        (∀ q ∈ post, (fs q).2 = .nil → ∀ kv ∈ assignments (fs q).1.lines, kv.1 ≠ name) →
        env1.lookup name = some value) ∧
      (∀ path ∈ effectiveFiles files, (fs path).2 = .nil →
        ∀ kv ∈ assignments (fs path).1.lines,
          ∃ (pre : List String) (q : String) (post : List String)
            (before : List (String × String)) (value : String)
            (after : List (String × String)),
            effectiveFiles files = pre ++ q :: post ∧ (fs q).2 = .nil ∧
              assignments (fs q).1.lines = before ++ (kv.1, value) :: after ∧
              (∀ x ∈ after, x.1 ≠ kv.1) ∧
              (∀ p ∈ post, (fs p).2 = .nil →
                ∀ x ∈ assignments (fs p).1.lines, x.1 ≠ kv.1) ∧
              env1.lookup kv.1 = some value) := by
  have hf := Load_recording_returned fs files env env1 [] filesLoaded err h
  rw [Load_recording_formatted fs files env [] hf] at h
  simp only [List.nil_append, Prod.mk.injEq] at h
  obtain ⟨_, henv, _⟩ := h
  have main : ∀ (pre post : List String) (path name value : String)
      (before after : List (String × String)),
      effectiveFiles files = pre ++ path :: post → (fs path).2 = .nil →
      assignments (fs path).1.lines = before ++ (name, value) :: after →
      (∀ kv ∈ after, kv.1 ≠ name) →
      (∀ q ∈ post, (fs q).2 = .nil → ∀ kv ∈ assignments (fs q).1.lines, kv.1 ≠ name) →
      env1.lookup name = some value := by
    intro pre post path name value before after heff hopen hsplit hafter hpost
    have hmem : path ∈ effectiveFiles files := by rw [heff]; simp
    have hvalid : setenvValid name value = true :=
      hset path hmem hopen (name, value) (by rw [hsplit]; simp)
    rw [← henv, heff]
    exact lookup_allAssignments_last fs env pre post path name value before after hopen hsplit
      hvalid hafter hpost
  refine ⟨main, ?_⟩
  intro path hp hopen kv hkv
  obtain ⟨pre, q, post, heff, hq, ⟨kv', hkv', hname⟩, hpost⟩ :=
    exists_last_file fs (effectiveFiles files) kv.1 ⟨path, hp, hopen, kv, hkv, rfl⟩
  obtain ⟨before, value, after, hsplit, hafter⟩ :=
    exists_last_assignment (assignments (fs q).1.lines) kv.1 ⟨kv', hkv', hname⟩
  exact ⟨pre, q, post, before, value, after, heff, hq, hsplit, hafter, hpost,
    main pre post q kv.1 value before after heff hq hsplit hafter hpost⟩

theorem Load_last_assignment_wins_witness :
    Environ.lookup (Load (recording fsBoth) [".env", "test.env"] [("VAR", "env-value")] []).2.1
        "VAR" = some "test-value" ∧
      Environ.lookup (Load (recording fsBoth) ["test.env", ".env"] [("VAR", "env-value")] []).2.1
        "VAR" = some "dotenv-value" :=
  have h1 : Load (recording fsBoth) [".env", "test.env"] [("VAR", "env-value")] [] =
      (.returned .nil, [("VAR", "test-value")], [".env", "test.env"]) := by decide
  have h2 : Load (recording fsBoth) ["test.env", ".env"] [("VAR", "env-value")] [] =
      (.returned .nil, [("VAR", "dotenv-value")], ["test.env", ".env"]) := by decide
  ⟨by
      rw [h1]
      exact (Load_last_assignment_wins fsBoth [".env", "test.env"] _ _ _ _ h1 (by decide)).1
        [".env"] [] "test.env" "VAR" "test-value" [] [] (by decide) (by decide) (by decide)
        (by decide) (by decide),
    by
      rw [h2]
      exact (Load_last_assignment_wins fsBoth ["test.env", ".env"] _ _ _ _ h2 (by decide)).1
        ["test.env"] [] ".env" "VAR" "dotenv-value" [] [] (by decide) (by decide) (by decide)
        (by decide) (by decide)⟩

/-! ## Properties of the error types -/

theorem Err.is_parseError (name : String) (err target : Err) :
    (Err.parseError name err).is target =
      (decide (Err.parseError name err = target) || ParseError_Is name err target ||
        err.is target) := by
  cases target <;> simp [Err.is, ParseError_Is]
  rename_i tname terr
  by_cases ht : terr = .nil
  · simp [ht]
  · by_cases he : err = .nil
    · simp [ht, he, errorsIs, Err.is]
      intro _ h
      exact absurd h.symm ht
    · simp [ht, he, errorsIs]

theorem Err.is_invalidValueError (value : String) (err target : Err) :
    (Err.invalidValueError value err).is target =
      (decide (Err.invalidValueError value err = target) ||
        InvalidValueError_Is value err target || err.is target) := by
  cases target <;> simp [Err.is, InvalidValueError_Is]
  rename_i tvalue terr
  by_cases ht : terr = .nil
  · simp [ht]
  · by_cases he : err = .nil
    · simp [ht, he, errorsIs, Err.is]
      intro _ h
      exact absurd h.symm ht
    · simp [ht, he, errorsIs]

theorem Err.is_rangeError (min max : Int) (target : Err) :
    (Err.rangeError min max).is target =
      (decide (Err.rangeError min max = target) ||
        RangeError.Is ⟨min, max⟩ (asRangeErrorInt target)) := by
  cases target <;> simp [Err.is, RangeError.Is, asRangeErrorInt]

/-- C17: for every `ParseError` `e` (with the fields `name`, `err`) and every
error `target`, `e.Is(target)` is true if and only if `target` is a
`ParseError` whose `VariableName` is empty or equal to that of `e` and whose
`Err` is nil or satisfies `errors.Is(e.Err, target.Err)`; so the zero
`ParseError` as the target matches every `ParseError`, and a target that is not
a `ParseError` does not match. -/
theorem ParseError_Is_iff (name : String) (err target : Err) :
    (ParseError_Is name err target = true ↔
        ∃ tname terr, target = .parseError tname terr ∧ (tname = "" ∨ tname = name) ∧
          (terr = .nil ∨ errorsIs err terr = true)) ∧
      ParseError_Is name err (.parseError "" .nil) = true ∧
      ((∀ tname terr, target ≠ .parseError tname terr) →
        ParseError_Is name err target = false) := by
  refine ⟨?_, ?_, ?_⟩
  · cases target <;> simp [ParseError_Is]
    rename_i tname terr
    constructor
    · rintro ⟨h1, h2⟩
      exact ⟨tname, terr, ⟨rfl, rfl⟩, h1.imp id Eq.symm, h2⟩
    · rintro ⟨a, b, ⟨rfl, rfl⟩, h1, h2⟩
      exact ⟨h1.imp id Eq.symm, h2⟩
  · simp [ParseError_Is]
  · intro h
    cases target <;> simp [ParseError_Is]
    rename_i tname terr
    exact absurd rfl (h tname terr)

example : ParseError_Is "VAR" (.errorString 100 "some error")
    (.parseError "OTHER" (.errorString 100 "some error")) = false := by decide
example : ParseError_Is "VAR" (.errorString 100 "some error")
    (.parseError "VAR" (.errorString 101 "other error")) = false := by decide
example : ParseError_Is "VAR" (.errorString 100 "some error")
    (.parseError "VAR" (.errorString 100 "some error")) = true := by decide

/-- C18: for every `RangeError[T]` `e` and every error `target`, `e.Is(target)`
is true if and only if `target` is a `RangeError[T]` of the same `T` that is
equal to `e` or is the zero `RangeError[T]`; so a target other than the zero
one that differs from `e` in `Min` or in `Max` does not match, and a target of
another type does not match. -/
theorem RangeError_Is_iff {T : Type} [DecidableEq T] [Inhabited T] (e : RangeError T)
    (target : Option (RangeError T)) :
    (e.Is target = true ↔
        ∃ t, target = some t ∧ (t = e ∨ t = ⟨default, default⟩)) ∧
      (∀ t : RangeError T, t ≠ ⟨default, default⟩ → (t.Min ≠ e.Min ∨ t.Max ≠ e.Max) →
        e.Is (some t) = false) ∧
      e.Is none = false := by
  refine ⟨?_, ?_, ?_⟩
  · cases target with
    | none => simp [RangeError.Is]
    | some t =>
        simp only [RangeError.Is, Bool.or_eq_true, decide_eq_true_eq, Option.some.injEq,
          exists_eq_left']
        constructor
        · rintro (h | h)
          · exact Or.inl h.symm
          · exact Or.inr h
        · rintro (h | h)
          · exact Or.inl h.symm
          · exact Or.inr h
  · intro t hz hd
    have hne : e ≠ t := by
      rintro rfl
      rcases hd with h | h <;> exact h rfl
    simp [RangeError.Is, hne, hz]
  · rfl

example : RangeError.Is (⟨1, 10⟩ : RangeError Int) (some ⟨0, 0⟩) = true := by decide
example : RangeError.Is (⟨1, 10⟩ : RangeError Int) (some ⟨2, 10⟩) = false := by decide
example : RangeError.Is (⟨1, 10⟩ : RangeError Int) (some ⟨1, 20⟩) = false := by decide
example : RangeError.Is (⟨1, 10⟩ : RangeError Int) (some ⟨1, 10⟩) = true := by decide

/-- C19 (counterexample): `RangeError[int]{Min: 1, Max: 10}.Is(RangeError[int]{Min: 1})`
is false, and so is `errors.Is` of the two: the target with one zero bound does
not match the error that carries the same non-zero bound. -/
theorem RangeError_partial_target_no_match :
    RangeError.Is (⟨1, 10⟩ : RangeError Int) (some ⟨1, 0⟩) = false ∧
      errorsIs (.rangeError 1 10) (.rangeError 1 0) = false := by
  decide

/-- C19 (amended): a `RangeError` target of which one bound is the zero value
and the other is not matches a `RangeError` of the same type only when the two
are equal, in `Min` and in `Max`: the zero bound of such a target is no
wildcard, and only the target with both bounds zero matches every
`RangeError`. -/
theorem RangeError_partial_target {T : Type} [DecidableEq T] [Inhabited T]
    (e t : RangeError T)
    (hpart : (t.Min = default ∧ t.Max ≠ default) ∨ (t.Min ≠ default ∧ t.Max = default)) :
    (e.Is (some t) = true ↔ e = t) ∧
      (e.Min ≠ t.Min ∨ e.Max ≠ t.Max → e.Is (some t) = false) ∧
      e.Is (some ⟨default, default⟩) = true := by
  have hz : t ≠ ⟨default, default⟩ := by
    rintro rfl
    rcases hpart with ⟨_, h⟩ | ⟨h, _⟩ <;> exact h rfl
  refine ⟨?_, ?_, ?_⟩
  · simp [RangeError.Is, hz]
  · intro hd
    have hne : e ≠ t := by
      rintro rfl
      rcases hd with h | h <;> exact h rfl
    simp [RangeError.Is, hne, hz]
  · simp [RangeError.Is]

theorem RangeError_partial_target_witness :
    (RangeError.Is (⟨1, 0⟩ : RangeError Int) (some ⟨1, 0⟩) = true ↔
        (⟨1, 0⟩ : RangeError Int) = ⟨1, 0⟩) ∧
      RangeError.Is (⟨1, 10⟩ : RangeError Int) (some ⟨1, 0⟩) = false :=
  have h := RangeError_partial_target (⟨1, 0⟩ : RangeError Int) ⟨1, 0⟩
    (Or.inr ⟨by decide, by decide⟩)
  ⟨h.1, (RangeError_partial_target (⟨1, 10⟩ : RangeError Int) ⟨1, 0⟩
    (Or.inr ⟨by decide, by decide⟩)).2.1 (Or.inr (by decide))⟩

/-- C20: for every `ParseError` and every `InvalidValueError`, `Error()` is the
label of the kind, followed by `": "` and the `VariableName` or `Value` when
that string is not empty, followed by `": "` and the `Error()` of `Err` when
`Err` is not nil; an instance with both fields empty renders as the label
alone. -/
theorem Error_rendering (name value : String) (err : Err) :
    (Err.parseError name err).Error =
        "env.ParseError" ++ (if name ≠ "" then ": " ++ name else "") ++
          (if err ≠ .nil then ": " ++ err.Error else "") ∧
      (Err.invalidValueError value err).Error =
        "env.InvalidValueError" ++ (if value ≠ "" then ": " ++ value else "") ++
          (if err ≠ .nil then ": " ++ err.Error else "") ∧
      (Err.parseError "" .nil).Error = "env.ParseError" ∧
      (Err.invalidValueError "" .nil).Error = "env.InvalidValueError" := by
  refine ⟨?_, ?_, ?_, ?_⟩
  · have hl : ∀ x : String, "env.ParseError: " ++ x = "env.ParseError" ++ (": " ++ x) :=
      fun x => by rw [← String.append_assoc]; exact congrArg (fun l => l ++ x) (by decide)
    by_cases hn : name = "" <;> by_cases he : err = .nil <;>
      simp [Err.Error, hn, he, hl, String.append_assoc]
  · have hl : ∀ x : String,
        "env.InvalidValueError: " ++ x = "env.InvalidValueError" ++ (": " ++ x) :=
      fun x => by rw [← String.append_assoc]; exact congrArg (fun l => l ++ x) (by decide)
    by_cases hv : value = "" <;> by_cases he : err = .nil <;>
      simp [Err.Error, hv, he, hl, String.append_assoc]
  · simp [Err.Error]
  · simp [Err.Error]

example : (Err.parseError "VAR" (.errorString 100 "some error")).Error =
    "env.ParseError: VAR: some error" := by decide
example : (Err.parseError "VAR" .nil).Error = "env.ParseError: VAR" := by decide
example : (Err.parseError "" (.errorString 100 "some error")).Error =
    "env.ParseError: some error" := by decide
example : (Err.invalidValueError "VAL" (.errorString 100 "some error")).Error =
    "env.InvalidValueError: VAL: some error" := by decide

/-! ## Properties of the conversion functions -/

/-- C15: for every string `s`, if the URL parser fails on `s`, `AbsoluteURL`
returns nil and the error of the parser, unchanged; if the parser succeeds and
the parsed URL has neither a scheme nor a host, `AbsoluteURL` returns nil and
`InvalidValueError{Value: s, Err: ErrNotAnAbsoluteURL}`. -/
theorem AbsoluteURL_errors (urlParse : String → Option URL × Err) (s : String) :
    (∀ u e, urlParse s = (u, e) → e ≠ .nil →
        asAbsoluteURL urlParse s = .returned (none, e)) ∧
      (∀ url, urlParse s = (some url, .nil) → url.Scheme = "" → url.Host = "" →
        asAbsoluteURL urlParse s =
          .returned (none, .invalidValueError s ErrNotAnAbsoluteURL)) := by
  refine ⟨?_, ?_⟩
  · intro u e h he
    simp [asAbsoluteURL, h, he]
  · intro url h hs _
    simp [asAbsoluteURL, h, URL.IsAbs, hs]

theorem AbsoluteURL_errors_witness :
    asAbsoluteURL urlParseExamples "/path" =
        .returned (none, .invalidValueError "/path" ErrNotAnAbsoluteURL) ∧
      asAbsoluteURL urlParseExamples "any" = .returned (none, .errorString 103 "url error") :=
  ⟨(AbsoluteURL_errors urlParseExamples "/path").2 ⟨"", "", "", "/path", "", ""⟩ (by decide)
      rfl rfl,
    (AbsoluteURL_errors urlParseExamples "any").1 none (.errorString 103 "url error")
      (by decide) (by decide)⟩

/-- What the code does ensure of the URL that `AbsoluteURL` returns with a nil
error: it is the URL the parser gave and its scheme is not empty; and every
string whose parsed form has an empty scheme is rejected with the
`InvalidValueError`, whatever its host. -/
theorem AbsoluteURL_scheme (urlParse : String → Option URL × Err) (s : String) :
    (∀ url, asAbsoluteURL urlParse s = .returned (some url, .nil) →
        urlParse s = (some url, .nil) ∧ url.Scheme ≠ "") ∧
      (∀ url, urlParse s = (some url, .nil) → url.Scheme = "" →
        asAbsoluteURL urlParse s =
          .returned (none, .invalidValueError s ErrNotAnAbsoluteURL)) := by
  refine ⟨?_, ?_⟩
  · intro url h
    unfold asAbsoluteURL at h
    rcases hp : urlParse s with ⟨u, e⟩
    rw [hp] at h
    by_cases he : e = .nil
    · subst he
      cases u with
      | none => simp at h
      | some v =>
          by_cases hs : v.Scheme = ""
          · simp [URL.IsAbs, hs] at h
          · simp [URL.IsAbs, hs] at h
            subst h
            exact ⟨rfl, hs⟩
    · simp [he] at h
  · intro url h hs
    simp [asAbsoluteURL, h, URL.IsAbs, hs]

/-- C16 (failing input): `AbsoluteURL("file:///etc/hosts")` and
`AbsoluteURL("mailto:user@example.com")` return the parsed URL with a nil
error, although its host is empty. -/
theorem AbsoluteURL_accepts_empty_host :
    asAbsoluteURL urlParseExamples "file:///etc/hosts" =
        .returned (some ⟨"file", "", "", "/etc/hosts", "", ""⟩, .nil) ∧
      (⟨"file", "", "", "/etc/hosts", "", ""⟩ : URL).Host = "" ∧
      asAbsoluteURL urlParseExamples "mailto:user@example.com" =
        .returned (some ⟨"mailto", "user@example.com", "", "", "", ""⟩, .nil) ∧
      (⟨"mailto", "user@example.com", "", "", "", ""⟩ : URL).Host = "" := by
  decide

example : asAbsoluteURL urlParseExamples "http://example.com" =
    .returned (some ⟨"http", "", "example.com", "", "", ""⟩, .nil) := by decide
example : asAbsoluteURL urlParseExamples "//example.com/path" =
    .returned (none, .invalidValueError "//example.com/path" ErrNotAnAbsoluteURL) := by decide

/-! ## The integer parser -/

theorem digit_le (c : Char) (h : c.isDigit = true) : c.toNat - 48 ≤ 9 := by
  simp [Char.isDigit] at h
  have h2 : c.val ≤ 57 := h.2
  have : c.toNat ≤ 57 := by
    simpa [Char.toNat] using (UInt32.le_def.mp h2 : _)
  omega

theorem afterSign_other (c : Char) (cs : List Char) (h1 : c ≠ '+') (h2 : c ≠ '-') :
    afterSign (c :: cs) = c :: cs := by
  unfold afterSign
  split
  · rename_i heq; simp at heq; exact absurd heq.1 h1
  · rename_i heq; simp at heq; exact absurd heq.1 h2
  · rfl

theorem afterSign_digit (c : Char) (cs : List Char) (h : c.isDigit = true) :
    afterSign (c :: cs) = c :: cs := by
  apply afterSign_other
  · rintro rfl; simp [Char.isDigit] at h
  · rintro rfl; simp [Char.isDigit] at h

theorem digitsValue_ge (ds : List Char) :
    ∀ n v : Nat, digitsValue ds n = some v → n ≤ v := by
  induction ds with
  | nil => intro n v h; simp [digitsValue] at h; omega
  | cons c cs ih =>
      intro n v h
      by_cases hc : c.isDigit = true
      · simp only [digitsValue, hc, if_true] at h
        have := ih _ _ h
        omega
      · simp [digitsValue, hc] at h

theorem parseUintLoop_digits (ds : List Char) :
    ∀ n v : Nat, digitsValue ds n = some v → n ≤ 18446744073709551615 →
      parseUintLoop ds n =
        if v ≤ 18446744073709551615 then (v, .nil) else (18446744073709551615, ErrRange) := by
  induction ds with
  | nil =>
      intro n v h hn
      simp [digitsValue] at h
      subst h
      simp [parseUintLoop, hn]
  | cons c cs ih =>
      intro n v h hn
      by_cases hc : c.isDigit = true
      · simp only [digitsValue, hc, if_true] at h
        have hge := digitsValue_ge cs _ _ h
        unfold parseUintLoop
        simp only [hc, Bool.not_true, Bool.false_eq_true, if_false]
        by_cases h1 : n ≥ 1844674407370955162
        · have hv : ¬ v ≤ 18446744073709551615 := by omega
          simp [h1, hv]
        · by_cases h2 : n * 10 + (c.toNat - 48) > 18446744073709551615
          · have hv : ¬ v ≤ 18446744073709551615 := by omega
            simp [h1, h2, hv]
          · simp only [h1, h2, if_false]
            exact ih _ _ h (by omega)
      · simp [digitsValue, hc] at h

theorem parseUintLoop_not_digits (ds : List Char) :
    ∀ n : Nat, digitsValue ds n = none →
      parseUintLoop ds n = (0, ErrSyntax) ∨
        parseUintLoop ds n = (18446744073709551615, ErrRange) := by
  induction ds with
  | nil => intro n h; simp [digitsValue] at h
  | cons c cs ih =>
      intro n h
      unfold parseUintLoop
      by_cases hc : c.isDigit = true
      · simp only [digitsValue, hc, if_true] at h
        simp only [hc, Bool.not_true, Bool.false_eq_true, if_false]
        by_cases h1 : n ≥ 1844674407370955162
        · simp [h1]
        · by_cases h2 : n * 10 + (c.toNat - 48) > 18446744073709551615
          · simp [h1, h2]
          · simp only [h1, h2, if_false]
            exact ih _ h
      · simp [hc]

theorem parseUintLoop_short (ds : List Char) :
    ∀ n k : Nat, digitsValue ds n = none → n < 10 ^ k → ds.length + k ≤ 19 →
      parseUintLoop ds n = (0, ErrSyntax) := by
  induction ds with
  | nil => intro n k h; simp [digitsValue] at h
  | cons c cs ih =>
      intro n k h hn hk
      unfold parseUintLoop
      by_cases hc : c.isDigit = true
      · simp only [digitsValue, hc, if_true] at h
        simp only [hc, Bool.not_true, Bool.false_eq_true, if_false]
        have hd := digit_le c hc
        simp only [List.length_cons] at hk
        have hk18 : k ≤ 18 := by omega
        have hpow : 10 ^ k ≤ 10 ^ 18 := Nat.pow_le_pow_right (by norm_num) hk18
        have hnext : n * 10 + (c.toNat - 48) < 10 ^ (k + 1) := by
          rw [pow_succ]
          omega
        have h1 : ¬ n ≥ 1844674407370955162 := by
          have : (10 : Nat) ^ 18 = 1000000000000000000 := by norm_num
          omega
        have hpow2 : 10 ^ (k + 1) ≤ 10 ^ 19 := Nat.pow_le_pow_right (by norm_num) (by omega)
        have h2 : ¬ n * 10 + (c.toNat - 48) > 18446744073709551615 := by
          have : (10 : Nat) ^ 19 = 10000000000000000000 := by norm_num
          omega
        simp only [h1, h2, if_false]
        exact ih _ (k + 1) h hnext (by omega)
      · simp [hc]

theorem strconvAtoi_digits (s : String) (neg : Bool) (n : Nat)
    (hne : afterSign s.data ≠ []) (hneg : s.data.head? = some '-' ↔ neg = true)
    (hval : digitsValue (afterSign s.data) 0 = some n) :
    strconvAtoi s =
      if neg = true then
        (if n ≤ 9223372036854775808 then (-(n : Int), .nil)
          else (-9223372036854775808, .numError "Atoi" s ErrRange))
      else
        (if n < 9223372036854775808 then ((n : Int), .nil)
          else (9223372036854775807, .numError "Atoi" s ErrRange)) := by
  have hs : s.data ≠ [] := by
    intro h
    rw [h] at hne
    exact hne rfl
  have hloop := parseUintLoop_digits (afterSign s.data) 0 n hval (by norm_num)
  unfold strconvAtoi
  simp only [hs, hne, or_self, if_false, hloop]
  by_cases hmax : n ≤ 18446744073709551615
  · simp only [hmax, if_true]
    have h1 : ¬ (Err.nil = ErrSyntax) := by decide
    simp only [h1, if_false]
    cases neg with
    | true =>
        have hh : s.data.head? = some '-' := hneg.mpr rfl
        simp only [hh, ne_eq, not_true_eq_false, false_and, if_false, true_and, if_true]
        by_cases h2 : n ≤ 9223372036854775808
        · have : ¬ n > 9223372036854775808 := by omega
          simp [h2, this]
        · have : n > 9223372036854775808 := by omega
          simp [h2, this]
    | false =>
        have hh : ¬ s.data.head? = some '-' := fun h => Bool.noConfusion (hneg.mp h)
        simp only [hh, ne_eq, not_false_eq_true, true_and, false_and, if_false]
        by_cases h2 : n < 9223372036854775808
        · have : ¬ n ≥ 9223372036854775808 := by omega
          simp [h2, this]
        · have : n ≥ 9223372036854775808 := by omega
          simp [h2, this]
  · simp only [hmax, if_false]
    have h1 : ¬ (ErrRange = ErrSyntax) := by decide
    simp only [h1, if_false]
    cases neg with
    | true =>
        have hh : s.data.head? = some '-' := hneg.mpr rfl
        have h2 : ¬ n ≤ 9223372036854775808 := by omega
        simp [hh, h2]
    | false =>
        have hh : ¬ s.data.head? = some '-' := fun h => Bool.noConfusion (hneg.mp h)
        have h2 : ¬ n < 9223372036854775808 := by omega
        simp [hh, h2]

theorem strconvAtoi_decimal (s : String) (i : Int) (h : IsDecimal s i) :
    strconvAtoi s =
      if -9223372036854775808 ≤ i ∧ i < 9223372036854775808 then (i, .nil)
      else if i < 0 then (-9223372036854775808, .numError "Atoi" s ErrRange)
      else (9223372036854775807, .numError "Atoi" s ErrRange) := by
  obtain ⟨ds, n, hne, hval, hcase⟩ := h
  obtain ⟨c, cs, rfl⟩ := List.exists_cons_of_ne_nil hne
  have hc : c.isDigit = true := by
    by_contra hc
    simp [digitsValue, hc] at hval
  rcases hcase with ⟨hd, rfl⟩ | ⟨hd, rfl⟩ | ⟨hd, rfl⟩
  · have hc2 : c ≠ '-' := by rintro rfl; simp [Char.isDigit] at hc
    have has : afterSign s.data = c :: cs := by rw [hd]; exact afterSign_digit c cs hc
    rw [strconvAtoi_digits s false n (by rw [has]; simp) (by simp [hd, hc2])
      (by rw [has]; exact hval)]
    by_cases h2 : n < 9223372036854775808
    · have : -9223372036854775808 ≤ (n : Int) ∧ (n : Int) < 9223372036854775808 := by omega
      simp [h2, this]
    · have : ¬ (-9223372036854775808 ≤ (n : Int) ∧ (n : Int) < 9223372036854775808) := by
        omega
      have h3 : ¬ (n : Int) < 0 := by omega
      simp [h2, this, h3]
  · have has : afterSign s.data = c :: cs := by rw [hd]; rfl
    rw [strconvAtoi_digits s false n (by rw [has]; simp) (by simp [hd])
      (by rw [has]; exact hval)]
    by_cases h2 : n < 9223372036854775808
    · have : -9223372036854775808 ≤ (n : Int) ∧ (n : Int) < 9223372036854775808 := by omega
      simp [h2, this]
    · have : ¬ (-9223372036854775808 ≤ (n : Int) ∧ (n : Int) < 9223372036854775808) := by
        omega
      have h3 : ¬ (n : Int) < 0 := by omega
      simp [h2, this, h3]
  · have has : afterSign s.data = c :: cs := by rw [hd]; rfl
    rw [strconvAtoi_digits s true n (by rw [has]; simp) (by simp [hd])
      (by rw [has]; exact hval)]
    by_cases h2 : n ≤ 9223372036854775808
    · have : -9223372036854775808 ≤ -(n : Int) ∧ -(n : Int) < 9223372036854775808 := by omega
      simp [h2, this]
    · have : ¬ (-9223372036854775808 ≤ -(n : Int) ∧ -(n : Int) < 9223372036854775808) := by
        omega
      have h3 : -(n : Int) < 0 := by omega
      simp [h2, this, h3]

theorem not_decimal (s : String) (h : ¬ ∃ i, IsDecimal s i) :
    afterSign s.data = [] ∨ digitsValue (afterSign s.data) 0 = none := by
  by_contra hc
  push_neg at hc
  obtain ⟨hne, hsome⟩ := hc
  obtain ⟨n, hn⟩ := Option.ne_none_iff_exists'.mp hsome
  apply h
  cases hd : s.data with
  | nil => rw [hd] at hne; exact absurd rfl hne
  | cons c cs =>
      rw [hd] at hne hn
      by_cases h1 : c = '+'
      · subst h1
        exact ⟨(n : Int), cs, n, hne, hn, Or.inr (Or.inl ⟨hd, rfl⟩)⟩
      · by_cases h2 : c = '-'
        · subst h2
          exact ⟨-(n : Int), cs, n, hne, hn, Or.inr (Or.inr ⟨hd, rfl⟩)⟩
        · rw [afterSign_other c cs h1 h2] at hn
          exact ⟨(n : Int), c :: cs, n, by simp, hn, Or.inl ⟨hd, rfl⟩⟩

theorem strconvAtoi_not_decimal (s : String) (h : ¬ ∃ i, IsDecimal s i) :
    (strconvAtoi s = (0, .numError "Atoi" s ErrSyntax) ∨
        (strconvAtoi s).2 = .numError "Atoi" s ErrRange) ∧
      ((afterSign s.data).length ≤ 19 → strconvAtoi s = (0, .numError "Atoi" s ErrSyntax)) := by
  rcases not_decimal s h with h0 | hnone
  · have : strconvAtoi s = (0, .numError "Atoi" s ErrSyntax) := by
      simp [strconvAtoi, h0]
    exact ⟨Or.inl this, fun _ => this⟩
  · by_cases h0 : s.data = [] ∨ afterSign s.data = []
    · have : strconvAtoi s = (0, .numError "Atoi" s ErrSyntax) := by
        simp [strconvAtoi, h0]
      exact ⟨Or.inl this, fun _ => this⟩
    · have hsyn : parseUintLoop (afterSign s.data) 0 = (0, ErrSyntax) →
          strconvAtoi s = (0, .numError "Atoi" s ErrSyntax) := by
        intro hl
        simp [strconvAtoi, h0, hl]
      refine ⟨?_, ?_⟩
      · rcases parseUintLoop_not_digits _ 0 hnone with hl | hl
        · exact Or.inl (hsyn hl)
        · right
          have h1 : ¬ (ErrRange = ErrSyntax) := by decide
          unfold strconvAtoi
          simp only [h0, if_false, hl, h1]
          by_cases hh : s.data.head? = some '-' <;> simp [hh]
      · intro hlen
        exact hsyn (parseUintLoop_short _ 0 0 hnone (by norm_num) (by omega))

theorem asInt_eq (s : String) :
    asInt s = if (strconvAtoi s).2 ≠ .nil then (0, (strconvAtoi s).2) else strconvAtoi s := by
  unfold asInt
  rcases h : strconvAtoi s with ⟨i, err⟩
  by_cases he : err = .nil <;> simp [he]

theorem asInt_decimal (s : String) (i : Int) (h : IsDecimal s i) :
    asInt s =
      if -9223372036854775808 ≤ i ∧ i < 9223372036854775808 then (i, .nil)
      else (0, .numError "Atoi" s ErrRange) := by
  rw [asInt_eq, strconvAtoi_decimal s i h]
  by_cases hr : -9223372036854775808 ≤ i ∧ i < 9223372036854775808
  · simp [hr]
  · by_cases hn : i < 0 <;> simp [hr, hn]

theorem asInt_not_decimal (s : String) (h : ¬ ∃ i, IsDecimal s i) :
    (asInt s = (0, .numError "Atoi" s ErrSyntax) ∨ asInt s = (0, .numError "Atoi" s ErrRange)) ∧
      ((afterSign s.data).length ≤ 19 → asInt s = (0, .numError "Atoi" s ErrSyntax)) := by
  obtain ⟨h1, h2⟩ := strconvAtoi_not_decimal s h
  have hsyn : strconvAtoi s = (0, .numError "Atoi" s ErrSyntax) →
      asInt s = (0, .numError "Atoi" s ErrSyntax) := by
    intro hs
    rw [asInt_eq, hs]
    simp
  refine ⟨?_, fun hl => hsyn (h2 hl)⟩
  rcases h1 with hs | hr
  · exact Or.inl (hsyn hs)
  · right
    rw [asInt_eq, hr]
    simp

theorem asPortNo_eq (s : String) :
    asPortNo s =
      if (asInt s).2 ≠ .nil then asInt s
      else if (asInt s).1 < 0 ∨ (asInt s).1 > 65535 then (0, .rangeError 0 65535)
      else asInt s := by
  unfold asPortNo asInt
  rcases h : strconvAtoi s with ⟨i, err⟩
  by_cases he : err = .nil <;> simp [he]

theorem wrapInt64_of_fits (x : Int) (h1 : -9223372036854775808 ≤ x)
    (h2 : x < 9223372036854775808) : wrapInt64 x = x := by
  unfold wrapInt64
  omega

/-- C13 (counterexample): `PortNo("9223372036854775808")`, a base-10 integer,
returns 0 and the range error of the integer parser, a `*strconv.NumError` that
wraps `strconv.ErrRange`: it is neither `RangeError[int]{Min: 0, Max: 65535}`
nor a syntax error. -/
theorem PortNo_beyond_int :
    asPortNo "9223372036854775808" =
        (0, .numError "Atoi" "9223372036854775808" ErrRange) ∧
      IsDecimal "9223372036854775808" 9223372036854775808 ∧
      Err.numError "Atoi" "9223372036854775808" ErrRange ≠ .rangeError 0 65535 ∧
      errorsIs (.numError "Atoi" "9223372036854775808" ErrRange) (.rangeError 0 65535) = false ∧
      errorsIs (.numError "Atoi" "9223372036854775808" ErrRange) ErrSyntax = false := by
  refine ⟨by decide, ?_, by decide, by decide, by decide⟩
  exact ⟨"9223372036854775808".data, 9223372036854775808, by decide, by decide,
    Or.inl ⟨rfl, rfl⟩⟩

/-- C13 (amended): for every string `s` that writes a base-10 integer `i` (an
optional sign, then decimal digits): when `i` is in the range of `int`,
`PortNo(s)` returns `(i, nil)` if `0 <= i <= 65535` and otherwise
`(0, RangeError[int]{Min: 0, Max: 65535})`; when `i` is outside the range of
`int`, it returns 0 and the range error of the integer parser.  For every `s`
that writes no integer it returns 0 and the error of the integer parser, which
is its syntax error when `s` has at most 19 characters after the sign, and its
syntax or range error otherwise. -/
theorem PortNo_spec (s : String) :
    (∀ i, IsDecimal s i → -9223372036854775808 ≤ i → i < 9223372036854775808 →
        asPortNo s = if 0 ≤ i ∧ i ≤ 65535 then (i, .nil) else (0, .rangeError 0 65535)) ∧
      (∀ i, IsDecimal s i → ¬ (-9223372036854775808 ≤ i ∧ i < 9223372036854775808) →
        asPortNo s = (0, .numError "Atoi" s ErrRange)) ∧
      ((¬ ∃ i, IsDecimal s i) →
        (asPortNo s = (0, .numError "Atoi" s ErrSyntax) ∨
            asPortNo s = (0, .numError "Atoi" s ErrRange)) ∧
          ((afterSign s.data).length ≤ 19 →
            asPortNo s = (0, .numError "Atoi" s ErrSyntax))) := by
  refine ⟨?_, ?_, ?_⟩
  · intro i hd h1 h2
    rw [asPortNo_eq, asInt_decimal s i hd]
    simp only [h1, h2, and_self, if_true, ne_eq, not_true_eq_false, if_false]
    by_cases hr : 0 ≤ i ∧ i ≤ 65535
    · have : ¬ (i < 0 ∨ i > 65535) := by omega
      simp [hr, this]
    · have : i < 0 ∨ i > 65535 := by omega
      simp [hr, this]
  · intro i hd hr
    rw [asPortNo_eq, asInt_decimal s i hd]
    simp [hr]
  · intro hn
    obtain ⟨h1, h2⟩ := asInt_not_decimal s hn
    have key : ∀ e, e ≠ Err.nil → asInt s = (0, e) → asPortNo s = (0, e) := by
      intro e he hs
      rw [asPortNo_eq, hs]
      simp [he]
    refine ⟨?_, fun hl => key _ (by simp) (h2 hl)⟩
    rcases h1 with hs | hr
    · exact Or.inl (key _ (by simp) hs)
    · exact Or.inr (key _ (by simp) hr)

theorem PortNo_spec_witness :
    asPortNo "65536" = (0, .rangeError 0 65535) ∧ asPortNo "-1" = (0, .rangeError 0 65535) ∧
      asPortNo "123" = (123, .nil) :=
  have h1 := (PortNo_spec "65536").1 65536
    ⟨"65536".data, 65536, by decide, by decide, Or.inl ⟨rfl, rfl⟩⟩ (by decide) (by decide)
  have h2 := (PortNo_spec "-1").1 (-1)
    ⟨"1".data, 1, by decide, by decide, Or.inr (Or.inr ⟨rfl, rfl⟩)⟩ (by decide) (by decide)
  have h3 := (PortNo_spec "123").1 123
    ⟨"123".data, 123, by decide, by decide, Or.inl ⟨rfl, rfl⟩⟩ (by decide) (by decide)
  ⟨by simpa using h1, by simpa using h2, by simpa using h3⟩

/-- C14 (counterexample): `Duration("99999999999999999999h", time.Second)`,
whose string is no plain integer, returns 0 and the range error of the integer
parser, which does not match `strconv.ErrSyntax`: the parser meets the overflow
at the twentieth digit, before the `h`.  `Duration("9223372036854775808",
time.Second)` returns the range error too. -/
theorem Duration_range_error :
    asDuration (fun _ => (0, .nil)) "99999999999999999999h" [1000000000] =
        (0, .numError "Atoi" "99999999999999999999h" ErrRange) ∧
      (¬ ∃ i, IsDecimal "99999999999999999999h" i) ∧
      errorsIs (.numError "Atoi" "99999999999999999999h" ErrRange) ErrSyntax = false ∧
      asDuration (fun _ => (0, .nil)) "9223372036854775808" [1000000000] =
        (0, .numError "Atoi" "9223372036854775808" ErrRange) := by
  refine ⟨by decide, ?_, by decide, by decide⟩
  rintro ⟨i, ds, n, _, hval, hcase⟩
  have hnone : digitsValue "99999999999999999999h".data 0 = none := by decide
  rcases hcase with ⟨hd, _⟩ | ⟨hd, _⟩ | ⟨hd, _⟩
  · rw [← hd, hnone] at hval
    exact Option.noConfusion hval
  · have h9 : "99999999999999999999h".data.head? = some '9' := by decide
    rw [hd] at h9
    simp at h9
  · have h9 : "99999999999999999999h".data.head? = some '9' := by decide
    rw [hd] at h9
    simp at h9

/-- C14 (amended): for every string `s` and every list of units that is not
empty, `Duration(s, u...)` does not depend on the units after the first.  When
`s` writes a base-10 integer `i` in the range of `int`, it returns `Int(s)`,
which is `i`, multiplied by `u[0]` in `int64` arithmetic (the product itself
when that is in the range of `int64`), with a nil error; when `i` is outside
the range of `int` it returns 0 and the range error of the integer parser.
When `s` writes no integer it returns 0 and the error of the integer parser,
which is its syntax error when `s` has at most 19 characters after the sign (as
for `1h`), and its syntax or range error otherwise. -/
theorem Duration_with_unit (timeParseDuration : String → Int × Err) (s : String) (u0 : Int)
    (rest : List Int) :
    asDuration timeParseDuration s (u0 :: rest) = asDuration timeParseDuration s [u0] ∧
      (∀ i, IsDecimal s i → -9223372036854775808 ≤ i → i < 9223372036854775808 →
        asInt s = (i, .nil) ∧
          asDuration timeParseDuration s (u0 :: rest) = (wrapInt64 (i * u0), .nil) ∧
          (-9223372036854775808 ≤ i * u0 → i * u0 < 9223372036854775808 →
            asDuration timeParseDuration s (u0 :: rest) = (i * u0, .nil))) ∧
      (∀ i, IsDecimal s i → ¬ (-9223372036854775808 ≤ i ∧ i < 9223372036854775808) →
        asDuration timeParseDuration s (u0 :: rest) = (0, .numError "Atoi" s ErrRange)) ∧
      ((¬ ∃ i, IsDecimal s i) →
        (asDuration timeParseDuration s (u0 :: rest) = (0, .numError "Atoi" s ErrSyntax) ∨
            asDuration timeParseDuration s (u0 :: rest) =
              (0, .numError "Atoi" s ErrRange)) ∧
          ((afterSign s.data).length ≤ 19 →
            asDuration timeParseDuration s (u0 :: rest) =
              (0, .numError "Atoi" s ErrSyntax))) := by
  have key : ∀ e, e ≠ Err.nil → asInt s = (0, e) →
      asDuration timeParseDuration s (u0 :: rest) = (0, e) := by
    intro e he hs
    simp [asDuration, hs, he]
  refine ⟨rfl, ?_, ?_, ?_⟩
  · intro i hd h1 h2
    have hi : asInt s = (i, .nil) := by
      rw [asInt_decimal s i hd]
      simp [h1, h2]
    have hdur : asDuration timeParseDuration s (u0 :: rest) = (wrapInt64 (i * u0), .nil) := by
      simp [asDuration, hi]
    refine ⟨hi, hdur, ?_⟩
    intro h3 h4
    rw [hdur, wrapInt64_of_fits _ h3 h4]
  · intro i hd hr
    apply key _ (by simp)
    rw [asInt_decimal s i hd]
    simp [hr]
  · intro hn
    obtain ⟨h1, h2⟩ := asInt_not_decimal s hn
    refine ⟨?_, fun hl => key _ (by simp) (h2 hl)⟩
    rcases h1 with hs | hr
    · exact Or.inl (key _ (by simp) hs)
    · exact Or.inr (key _ (by simp) hr)

theorem Duration_with_unit_witness :
    asDuration (fun _ => (0, .nil)) "10" [1000000000, 60000000000] = (10000000000, .nil) ∧
      asDuration (fun _ => (0, .nil)) "10" [1000000000, 60000000000] =
        asDuration (fun _ => (0, .nil)) "10" [1000000000] :=
  have h := Duration_with_unit (fun _ => (0, .nil)) "10" 1000000000 [60000000000]
  ⟨by
      simpa using (h.2.1 10 ⟨"10".data, 10, by decide, by decide, Or.inl ⟨rfl, rfl⟩⟩
        (by decide) (by decide)).2.2 (by decide) (by decide),
    h.1⟩

/-! ## Snapshot and restore -/

theorem dropWhile_ne_append (sep : Char) (l r : List Char) (h : sep ∉ l) :
    (l ++ sep :: r).dropWhile (fun c => c != sep) = sep :: r := by
  induction l with
  | nil => simp [List.dropWhile]
  | cons c cs ih =>
      have hc : (c != sep) = true := by
        simp only [bne_iff_ne]
        exact fun hc => h (by simp [hc])
      have hcs : sep ∉ cs := fun hm => h (List.mem_cons_of_mem _ hm)
      rw [List.cons_append, List.dropWhile_cons, if_pos hc]
      exact ih hcs

theorem takeWhile_ne_append (sep : Char) (l r : List Char) (h : sep ∉ l) :
    (l ++ sep :: r).takeWhile (fun c => c != sep) = l := by
  induction l with
  | nil => simp [List.takeWhile]
  | cons c cs ih =>
      have hc : (c != sep) = true := by
        simp only [bne_iff_ne]
        exact fun hc => h (by simp [hc])
      have hcs : sep ∉ cs := fun hm => h (List.mem_cons_of_mem _ hm)
      rw [List.cons_append, List.takeWhile_cons, if_pos hc, ih hcs]

theorem stringsCut_entry (name value : String) (h : '=' ∉ name.data) :
    stringsCut (name ++ "=" ++ value) '=' = (name, value, true) := by
  have hd : (name ++ "=" ++ value).data = name.data ++ '=' :: value.data := by
    simp [String.data_append]
  unfold stringsCut
  rw [hd, dropWhile_ne_append '=' _ _ h, takeWhile_ne_append '=' _ _ h]

theorem setenvValid_no_eq (name value : String) (h : setenvValid name value = true) :
    '=' ∉ name.data := by
  unfold setenvValid at h
  simp only [Bool.not_eq_true', Bool.or_eq_false_iff] at h
  intro hm
  have := h.1.1.2
  simp [hm] at this

theorem Environ.set_new (env : Environ) (name value : String)
    (h : name ∉ env.map Prod.fst) : env.set name value = env ++ [(name, value)] := by
  induction env with
  | nil => rfl
  | cons kv rest ih =>
      obtain ⟨k, v⟩ := kv
      have hk : k ≠ name := fun hk => h (by simp [hk])
      have hr : name ∉ rest.map Prod.fst := fun hm => h (by simp at hm ⊢; exact Or.inr hm)
      simp [Environ.set, hk, ih hr]

theorem Reset_fold (rest : Environ) :
    ∀ acc : Environ, Environ.Valid (acc ++ rest) →
      (osEnviron rest).foldl (fun e entry =>
        match stringsCut entry '=' with
        | (k, v, _) => (osSetenv e k v).1) acc = acc ++ rest := by
  induction rest with
  | nil => intro acc _; simp [osEnviron]
  | cons kv tl ih =>
      intro acc hv
      obtain ⟨k, v⟩ := kv
      have hvalid : setenvValid k v = true := hv.1 (k, v) (by simp)
      have hnew : k ∉ acc.map Prod.fst := by
        have hnd := hv.2
        rw [List.map_append, List.nodup_append] at hnd
        intro hm
        exact hnd.2.2 hm (by simp)
      have hstep : (osSetenv acc k v).1 = acc ++ [(k, v)] := by
        simp [osSetenv, hvalid, Environ.set_new acc k v hnew]
      have hv2 : Environ.Valid ((acc ++ [(k, v)]) ++ tl) := by
        simpa using hv
      simp only [osEnviron, List.map_cons, List.foldl_cons,
        stringsCut_entry k v (setenvValid_no_eq k v hvalid), hstep]
      have := ih (acc ++ [(k, v)]) hv2
      simpa [osEnviron] using this

theorem Reset_State (E env : Environ) (hE : E.Valid) : state.Reset (State E) env = E := by
  unfold state.Reset State osClearenv
  have := Reset_fold E [] (by simpa using hE)
  simpa using this

theorem Environ.map_fst_set (env : Environ) (name value : String) :
    (env.set name value).map Prod.fst =
      if name ∈ env.map Prod.fst then env.map Prod.fst else env.map Prod.fst ++ [name] := by
  induction env with
  | nil => simp [Environ.set]
  | cons kv rest ih =>
      obtain ⟨k, v⟩ := kv
      by_cases hk : k = name
      · subst hk
        simp [Environ.set]
      · have hk2 : ¬ name = k := fun h => hk h.symm
        by_cases hm : name ∈ rest.map Prod.fst
        · simp only [Environ.set, hk, if_false, List.map_cons, ih, hm, if_true]
          simp at hm ⊢
          simp [hm]
        · simp only [Environ.set, hk, if_false, List.map_cons, ih, hm]
          simp at hm ⊢
          simp [hk2, hm]

theorem Environ.mem_set (env : Environ) (name value : String) (kv : String × String)
    (h : kv ∈ env.set name value) : kv ∈ env ∨ kv = (name, value) := by
  induction env with
  | nil => simp [Environ.set] at h; exact Or.inr h
  | cons x rest ih =>
      obtain ⟨k, v⟩ := x
      by_cases hk : k = name
      · simp only [Environ.set, hk, if_true, List.mem_cons] at h
        rcases h with h | h
        · exact Or.inr h
        · exact Or.inl (List.mem_cons_of_mem _ h)
      · simp only [Environ.set, hk, if_false, List.mem_cons] at h
        rcases h with h | h
        · exact Or.inl (by simp [h])
        · rcases ih h with h2 | h2
          · exact Or.inl (List.mem_cons_of_mem _ h2)
          · exact Or.inr h2

theorem Environ.Valid_nil : Environ.Valid [] := by
  simp [Environ.Valid]

theorem Environ.Valid_osSetenv (env : Environ) (name value : String) (h : env.Valid) :
    Environ.Valid (osSetenv env name value).1 := by
  unfold osSetenv
  by_cases hv : setenvValid name value = true
  · simp only [hv, if_true]
    refine ⟨?_, ?_⟩
    · intro kv hkv
      rcases Environ.mem_set env name value kv hkv with h1 | h1
      · exact h.1 kv h1
      · rw [h1]; exact hv
    · rw [Environ.map_fst_set]
      by_cases hm : name ∈ env.map Prod.fst
      · simp only [hm, if_true]; exact h.2
      · simp only [hm, if_false]
        rw [List.nodup_append]
        exact ⟨h.2, by simp, by
          intro a ha hb
          simp at hb
          subst hb
          exact hm ha⟩
  · simpa [hv] using h

theorem Environ.Valid_osUnsetenv (env : Environ) (name : String) (h : env.Valid) :
    Environ.Valid (osUnsetenv env name).1 := by
  unfold osUnsetenv
  refine ⟨?_, ?_⟩
  · intro kv hkv
    exact h.1 kv (List.mem_filter.mp hkv).1
  · exact List.Nodup.sublist (List.Sublist.map _ (List.filter_sublist _)) h.2

theorem Environ.Valid_Unset (names : List String) :
    ∀ env : Environ, env.Valid → Environ.Valid (Unset env names).1 := by
  induction names with
  | nil => intro env h; exact h
  | cons k rest ih =>
      intro env h
      unfold Unset
      have h1 := Environ.Valid_osUnsetenv env k h
      have he : (osUnsetenv env k).2 = .nil := rfl
      rcases hu : osUnsetenv env k with ⟨env1, err⟩
      rw [hu] at h1 he
      simp only at he
      subst he
      simpa using ih env1 h1

theorem Environ.Valid_apply (m : Mutation) (env : Environ) (h : env.Valid) :
    Environ.Valid (m.apply env) := by
  cases m with
  | set name value => exact Environ.Valid_osSetenv env name value h
  | unset names => exact Environ.Valid_Unset names env h
  | clear => exact Environ.Valid_nil

/-- C12 (counterexample): the environment holds the entry `=X=1`, which the
process inherited (its name before the first `=` is empty), and `A=1`.
`State()` captures both entries; `Reset()`, with no change or with `A` changed
in between, leaves `A=1` alone: `strings.Cut` splits `=X=1` into the key `""`
and the value `X=1`, and `os.Setenv` refuses the empty key with an error that
`Reset` does not look at. -/
theorem Reset_loses_entry_with_empty_name :
    State [("", "X=1"), ("A", "1")] = ["=X=1", "A=1"] ∧
      stringsCut "=X=1" '=' = ("", "X=1", true) ∧
      (osSetenv [] "" "X=1") = ([], .syscallError "setenv" EINVAL) ∧
      state.Reset (State [("", "X=1"), ("A", "1")]) [("", "X=1"), ("A", "1")] =
        [("A", "1")] ∧
      state.Reset (State [("", "X=1"), ("A", "1")])
          ([Mutation.set "A" "2"].foldl (fun env m => m.apply env) [("", "X=1"), ("A", "1")]) =
        [("A", "1")] := by
  decide

/-- C12 (amended): for every environment `E` of variables with distinct names
that are not empty and hold neither `=` nor NUL, and values that hold no NUL
(which is the invariant that `Set`, `Unset` and `Clear` keep, and what
`os.Setenv` can set), and every sequence of set,
unset and clear changes applied after `s := State()`, the environment after
`s.Reset()` is `E`: it has the names and values of `E` and no other, so every
lookup gives what it gave in `E`; a value that holds `=` is restored whole. -/
theorem Reset_restores (E : Environ) (changes : List Mutation) (hE : E.Valid) :
    state.Reset (State E) (changes.foldl (fun env m => m.apply env) E) = E ∧
      (∀ name, (state.Reset (State E)
        (changes.foldl (fun env m => m.apply env) E)).lookup name = E.lookup name) ∧
      Environ.Valid (changes.foldl (fun env m => m.apply env) E) := by
  have h := Reset_State E (changes.foldl (fun env m => m.apply env) E) hE
  refine ⟨h, fun name => by rw [h], ?_⟩
  have : ∀ (ms : List Mutation) (env : Environ), env.Valid →
      Environ.Valid (ms.foldl (fun env m => m.apply env) env) := by
    intro ms
    induction ms with
    | nil => intro env he; exact he
    | cons m rest ih => intro env he; exact ih _ (Environ.Valid_apply m env he)
  exact this changes E hE

theorem Reset_restores_witness :
    state.Reset (State [("A", "1"), ("B", "x=y"), ("C", "")])
        ([Mutation.set "A" "2", .unset ["B"], .set "D" "4"].foldl (fun env m => m.apply env)
          [("A", "1"), ("B", "x=y"), ("C", "")]) =
      [("A", "1"), ("B", "x=y"), ("C", "")] :=
  (Reset_restores [("A", "1"), ("B", "x=y"), ("C", "")]
    [Mutation.set "A" "2", .unset ["B"], .set "D" "4"] ⟨by decide, by decide⟩).1

example : [Mutation.set "A" "2", .unset ["B"], .set "D" "4"].foldl (fun env m => m.apply env)
    [("A", "1"), ("B", "x=y"), ("C", "")] = [("A", "2"), ("C", ""), ("D", "4")] := by decide

/-! ## The lines of a file -/

theorem dropWhile_ne_absent (sep : Char) (l : List Char) (h : sep ∉ l) :
    l.dropWhile (fun c => c != sep) = [] := by
  rw [List.dropWhile_eq_nil_iff]
  intro c hc
  simp only [bne_iff_ne]
  exact fun hcs => h (hcs ▸ hc)

theorem splitLine_skip (text : String)
    (h : stringsTrimSpace text = "" ∨ (stringsTrimSpace text).data.head? = some '#') :
    splitLine text = .returned none := by
  unfold splitLine
  simp only [h, if_true]

theorem splitLine_assign (text : String) (before after : List Char)
    (h : ¬ (stringsTrimSpace text = "" ∨ (stringsTrimSpace text).data.head? = some '#'))
    (hd : (stringsTrimSpace text).data = before ++ '=' :: after) (hb : '=' ∉ before) :
    splitLine text =
      .returned (some (stringsTrimSpace (String.mk before), stringsTrimSpace (String.mk after))) := by
  unfold splitLine
  simp only [h, if_false]
  unfold stringsSplitN2
  rw [hd, dropWhile_ne_append '=' _ _ hb, takeWhile_ne_append '=' _ _ hb]
  rfl

theorem splitLine_panics (text : String)
    (h : ¬ (stringsTrimSpace text = "" ∨ (stringsTrimSpace text).data.head? = some '#'))
    (hn : '=' ∉ (stringsTrimSpace text).data) :
    splitLine text = .panic "runtime error: index out of range [1] with length 1" := by
  unfold splitLine
  simp only [h, if_false]
  unfold stringsSplitN2
  rw [dropWhile_ne_absent '=' _ hn]
  rfl

/-- C11 (failing input): for the file content of the three lines `A=1`, `FOO`
and `B=2`, `loadFile` sets `A` and then panics at `parts[1]` on the line `FOO`,
which is not empty after trimming, does not start with `#` and holds no `=`:
the line `B=2`, whose name is `B` and whose value is `2`, is never reached and
`B` is not set. -/
theorem loadFile_line_without_equals :
    loadFile (recording (fun _ => fakeFile ["A=1", "FOO", "B=2"])) "a.env" [] [] =
        (.panic "runtime error: index out of range [1] with length 1", [("A", "1")],
          ["a.env"]) ∧
      stringsTrimSpace "FOO" = "FOO" ∧
      splitLine "B=2" = .returned (some ("B", "2")) ∧
      Environ.lookup
        (loadFile (recording (fun _ => fakeFile ["A=1", "FOO", "B=2"])) "a.env" [] []).2.1
        "B" = none := by
  decide

/-! ## Properties of Vars -/

theorem char_eq_of_toNat (a b : Char) (h : a.toNat = b.toNat) : a = b := by
  apply Char.ext
  apply UInt32.ext
  exact h

theorem lexLess_irrefl (a : List Char) : lexLess a a = false := by
  induction a with
  | nil => rfl
  | cons c cs ih => simp [lexLess, ih]

theorem lexLess_trans : ∀ a b c : List Char, lexLess a b = true → lexLess b c = true →
    lexLess a c = true
  | _, _, [], _, h2 => by simp [lexLess] at h2
  | _, [], _ :: _, h1, _ => by simp [lexLess] at h1
  | [], _ :: _, _ :: _, _, _ => by simp [lexLess]
  | x :: xs, y :: ys, z :: zs, h1, h2 => by
      simp only [lexLess, Bool.or_eq_true, decide_eq_true_eq, Bool.and_eq_true, beq_iff_eq]
        at h1 h2 ⊢
      rcases h1 with h1 | ⟨e1, h1⟩ <;> rcases h2 with h2 | ⟨e2, h2⟩
      · exact Or.inl (by omega)
      · exact Or.inl (by omega)
      · exact Or.inl (by omega)
      · exact Or.inr ⟨by omega, lexLess_trans xs ys zs h1 h2⟩

theorem lexLess_trichotomy : ∀ a b : List Char, lexLess a b = true ∨ a = b ∨ lexLess b a = true
  | [], [] => Or.inr (Or.inl rfl)
  | [], _ :: _ => Or.inl (by simp [lexLess])
  | _ :: _, [] => Or.inr (Or.inr (by simp [lexLess]))
  | x :: xs, y :: ys => by
      simp only [lexLess, Bool.or_eq_true, decide_eq_true_eq, Bool.and_eq_true, beq_iff_eq]
      rcases Nat.lt_trichotomy x.toNat y.toNat with h | h | h
      · exact Or.inl (Or.inl h)
      · have hxy := char_eq_of_toNat x y h
        subst hxy
        rcases lexLess_trichotomy xs ys with h1 | h1 | h1
        · exact Or.inl (Or.inr ⟨rfl, h1⟩)
        · exact Or.inr (Or.inl (by rw [h1]))
        · exact Or.inr (Or.inr (Or.inr ⟨rfl, h1⟩))
      · exact Or.inr (Or.inr (Or.inl h))

theorem lexLess_asymm (a b : List Char) (h : lexLess a b = true) : lexLess b a = false := by
  cases h2 : lexLess b a with
  | false => rfl
  | true =>
      have := lexLess_trans a b a h h2
      rw [lexLess_irrefl] at this
      exact Bool.noConfusion this

theorem stringLess_total (a b : String) : stringLess b a = false ∨ stringLess a b = false := by
  cases h : stringLess b a with
  | false => exact Or.inl rfl
  | true => exact Or.inr (lexLess_asymm _ _ h)

theorem stringLess_antisymm (a b : String) (h1 : stringLess b a = false)
    (h2 : stringLess a b = false) : a = b := by
  rcases lexLess_trichotomy a.data b.data with h | h | h
  · rw [stringLess, h] at h2; exact Bool.noConfusion h2
  · exact String.ext h
  · rw [stringLess, h] at h1; exact Bool.noConfusion h1

theorem stringLess_le_trans (a b c : String) (h1 : stringLess b a = false)
    (h2 : stringLess c b = false) : stringLess c a = false := by
  cases h : stringLess c a with
  | false => rfl
  | true =>
      rcases lexLess_trichotomy b.data a.data with h3 | h3 | h3
      · rw [stringLess, h3] at h1; exact Bool.noConfusion h1
      · rw [stringLess, h3] at h2; rw [stringLess] at h; rw [h] at h2; exact Bool.noConfusion h2
      · have := lexLess_trans c.data a.data b.data h h3
        rw [stringLess, this] at h2; exact Bool.noConfusion h2

theorem slicesSort_perm (names : List String) : (slicesSort names).Perm names :=
  List.perm_insertionSort _ names

theorem slicesSort_sorted (names : List String) :
    (slicesSort names).Sorted (fun a b => stringLess b a = false) :=
  @List.sorted_insertionSort _ (fun a b => stringLess b a = false) _
    ⟨fun a b => stringLess_total a b⟩ ⟨fun a b c h1 h2 => stringLess_le_trans a b c h1 h2⟩ names

theorem slicesSort_unique (names sorted : List String) (hp : sorted.Perm names)
    (hs : sorted.Sorted (fun a b => stringLess b a = false)) : slicesSort names = sorted :=
  @List.eq_of_perm_of_sorted _ (fun a b => stringLess b a = false)
    ⟨fun a b h1 h2 => stringLess_antisymm a b h1 h2⟩ _ _
    ((slicesSort_perm names).trans hp.symm) (slicesSort_sorted names) hs

theorem slicesSort_strict (names : List String) (h : names.Nodup) :
    (slicesSort names).Sorted (fun a b => stringLess a b = true) := by
  have hnd : (slicesSort names).Nodup := (slicesSort_perm names).nodup_iff.mpr h
  have := List.Pairwise.and (slicesSort_sorted names) hnd
  refine List.Pairwise.imp ?_ this
  intro a b hab
  cases hl : stringLess a b with
  | true => rfl
  | false => exact absurd (stringLess_antisymm a b hab.1 hl) hab.2

theorem Vars_index_mem (v : Vars) (h : v.WF) (kv : String × String) (hm : kv ∈ v) :
    Vars.index v kv.1 = kv.2 := by
  induction v with
  | nil => simp at hm
  | cons x rest ih =>
      obtain ⟨k1, value⟩ := x
      have hnd : k1 ∉ rest.map Prod.fst ∧ (rest.map Prod.fst).Nodup := by
        simpa [Vars.WF] using h
      rcases List.mem_cons.mp hm with rfl | hr
      · simp [Vars.index]
      · have hne : k1 ≠ kv.1 := fun he => hnd.1 (he ▸ List.mem_map_of_mem Prod.fst hr)
        simp only [Vars.index, hne, if_false]
        exact ih hnd.2 hr

theorem Vars_map_index (v : Vars) (h : v.WF) :
    (v.map Prod.fst).map (fun k => (k, Vars.index v k)) = v := by
  rw [List.map_map]
  conv_rhs => rw [← List.map_id v]
  apply List.map_congr_left
  intro kv hm
  simp [Vars_index_mem v h kv hm]

theorem Vars_String_eq (v : Vars) :
    Vars.String v = renderEntries ((Vars.Names v).map (fun k => (k, Vars.index v k))) := by
  simp [Vars.String, renderEntries, stringsJoin, List.map_map, Function.comp_def]

theorem Vars_entries_perm (v : Vars) (h : v.WF) :
    ((Vars.Names v).map (fun k => (k, Vars.index v k))).Perm v := by
  have := (slicesSort_perm (v.map Prod.fst)).map (fun k => (k, Vars.index v k))
  rwa [Vars_map_index v h] at this

theorem Vars_index_perm (v w : Vars) (hv : v.WF) (hw : w.WF) (hp : w.Perm v) (k : String)
    (hk : k ∈ v.map Prod.fst) : Vars.index w k = Vars.index v k := by
  obtain ⟨kv, hm, rfl⟩ := List.mem_map.mp hk
  rw [Vars_index_mem v hv kv hm, Vars_index_mem w hw kv (hp.symm.subset hm)]

theorem Vars_String_perm (v w : Vars) (hv : v.WF) (hp : w.Perm v) :
    Vars.String w = Vars.String v := by
  have hw : w.WF := (hp.map Prod.fst).nodup_iff.mpr hv
  have hn : Vars.Names w = Vars.Names v :=
    slicesSort_unique _ _ ((slicesSort_perm _).trans (hp.symm.map Prod.fst))
      (slicesSort_sorted _)
  rw [Vars_String_eq, Vars_String_eq, hn]
  congr 1
  apply List.map_congr_left
  intro k hk
  have hk2 : k ∈ v.map Prod.fst := (slicesSort_perm _).subset hk
  rw [Vars_index_perm v w hv hw hp k hk2]

/-- C21: for every `Vars` collection `v`, `v.String()` is `[`, the entries
`NAME="VALUE"` joined by `,` and `]`, where the entries are those of `v`, each
once, in strictly ascending order of the name, and the value stands between
double quotes as it is; the result does not depend on the order in which the
map yields its entries; the empty collection renders `[]` and
`{"B":"2","A":"1"}` renders `[A="1",B="2"]`. -/
theorem Vars_String_sorted (v : Vars) (h : v.WF) :
    (∃ entries : List (String × String), entries.Perm v ∧
        (entries.map Prod.fst).Sorted (fun a b => stringLess a b = true) ∧
        Vars.String v = renderEntries entries) ∧
      (∀ w : Vars, w.Perm v → Vars.String w = Vars.String v) ∧
      Vars.String [] = "[]" ∧
      Vars.String [("B", "2"), ("A", "1")] = "[A=\"1\",B=\"2\"]" := by
  refine ⟨⟨(Vars.Names v).map (fun k => (k, Vars.index v k)), Vars_entries_perm v h, ?_,
    Vars_String_eq v⟩, fun w hp => Vars_String_perm v w h hp, by decide, by decide⟩
  rw [List.map_map]
  have : (Prod.fst ∘ fun k => (k, Vars.index v k)) = id := rfl
  rw [this, List.map_id]
  exact slicesSort_strict _ h

theorem Vars_String_sorted_witness :
    Vars.String [("A", "1"), ("B", "2")] = Vars.String [("B", "2"), ("A", "1")] :=
  (Vars_String_sorted [("B", "2"), ("A", "1")] (by simp [Vars.WF])).2.1
    [("A", "1"), ("B", "2")] (List.Perm.swap _ _ _)

example : Vars.String [("Q", "say \"hi\""), ("A", "x,y")] = "[A=\"x,y\",Q=\"say \"hi\"\"]" := by
  decide

theorem setenvErr_nil_iff (key value : String) :
    setenvErr key value = .nil ↔ setenvValid key value = true := by
  rw [setenvErr_eq]
  by_cases h : setenvValid key value = true <;> simp [h]

theorem osSetenv_fails (env : Environ) (key value : String) (h : setenvErr key value ≠ .nil) :
    osSetenv env key value = (env, setenvErr key value) := by
  have hv : ¬ setenvValid key value = true := fun hv => h ((setenvErr_nil_iff key value).mpr hv)
  rw [setenvErr_eq]
  simp [osSetenv, hv]

theorem Vars_Set_succeeds (v : Vars) :
    ∀ env : Environ, (∀ kv ∈ v, setenvErr kv.1 kv.2 = .nil) →
      Vars.Set osSetenv v env = (.nil, env.setAll v) := by
  induction v with
  | nil => intro env _; rfl
  | cons x rest ih =>
      intro env h
      obtain ⟨k, value⟩ := x
      have hx : setenvErr k value = .nil := h (k, value) (List.mem_cons_self _ _)
      have herr := osSetenv_err env k value
      rw [hx] at herr
      rcases hs : osSetenv env k value with ⟨env1, err⟩
      rw [hs] at herr
      simp only at herr
      subst herr
      unfold Vars.Set
      simp only [hs, ne_eq, not_true_eq_false, if_false]
      rw [ih env1 (fun kv hkv => h kv (List.mem_cons_of_mem _ hkv)), Environ.setAll_cons, hs]

theorem Vars_Set_stops (before : Vars) (k value : String) (after : Vars) :
    ∀ env : Environ, (∀ kv ∈ before, setenvErr kv.1 kv.2 = .nil) → setenvErr k value ≠ .nil →
      Vars.Set osSetenv (before ++ (k, value) :: after) env =
        (.wrapError ("failed to set environment variable " ++ k ++ ": " ++
            (setenvErr k value).Error) (setenvErr k value), env.setAll before) := by
  induction before with
  | nil =>
      intro env _ hf
      unfold Vars.Set
      simp [osSetenv_fails env k value hf, hf, Environ.setAll]
  | cons x rest ih =>
      intro env h hf
      obtain ⟨k1, value1⟩ := x
      have hx : setenvErr k1 value1 = .nil := h (k1, value1) (List.mem_cons_self _ _)
      have herr := osSetenv_err env k1 value1
      rw [hx] at herr
      rcases hs : osSetenv env k1 value1 with ⟨env1, err⟩
      rw [hs] at herr
      simp only at herr
      subst herr
      rw [List.cons_append]
      unfold Vars.Set
      simp only [hs, ne_eq, not_true_eq_false, if_false]
      rw [ih env1 (fun kv hkv => h kv (List.mem_cons_of_mem _ hkv)) hf, Environ.setAll_cons, hs]

theorem lookup_setAll_entry (v : Vars) (h : v.WF) (env : Environ)
    (hv : ∀ kv ∈ v, setenvErr kv.1 kv.2 = .nil) (kv : String × String) (hm : kv ∈ v) :
    (env.setAll v).lookup kv.1 = some kv.2 := by
  obtain ⟨before, after, rfl⟩ := List.append_of_mem hm
  have hnd : (before.map Prod.fst ++ kv.1 :: after.map Prod.fst).Nodup := by
    simpa [Vars.WF] using h
  have hafter : ∀ x ∈ after, x.1 ≠ kv.1 := by
    intro x hx he
    have h2 := (List.nodup_append.mp hnd).2.1
    rw [List.nodup_cons] at h2
    exact h2.1 (he ▸ List.mem_map_of_mem Prod.fst hx)
  exact lookup_setAll_last env before after kv.1 kv.2
    ((setenvErr_nil_iff kv.1 kv.2).mp (hv kv hm)) hafter

/-- C22: for every `Vars` collection `v` and every environment, with
`os.Setenv` as `osSetenv`.  If every individual set succeeds, `v.Set()` returns
nil, and afterwards every entry of `v` is in the environment with its value and
every variable that `v` does not name is as before.  If the set of the entry
`k` fails with the error `e`, after the entries `before` that the map yielded
first were set, `v.Set()` returns the error
`failed to set environment variable k: e`, which is not nil, wraps `e` and
matches it under `errors.Is`; the entries of `before` are in the environment
with their values, and every other variable, those of the later entries
included, is as before. -/
theorem Vars_Set_spec (v : Vars) (env : Environ) (h : v.WF) :
    ((∀ kv ∈ v, setenvErr kv.1 kv.2 = .nil) →
        (Vars.Set osSetenv v env).1 = .nil ∧
          (∀ kv ∈ v, (Vars.Set osSetenv v env).2.lookup kv.1 = some kv.2) ∧
          (∀ name, name ∉ v.map Prod.fst →
            (Vars.Set osSetenv v env).2.lookup name = env.lookup name)) ∧
      (∀ (before : Vars) (k value : String) (after : Vars),
        v = before ++ (k, value) :: after → (∀ kv ∈ before, setenvErr kv.1 kv.2 = .nil) →
        setenvErr k value ≠ .nil →
          (Vars.Set osSetenv v env).1 =
              .wrapError ("failed to set environment variable " ++ k ++ ": " ++
                (setenvErr k value).Error) (setenvErr k value) ∧
            (Vars.Set osSetenv v env).1 ≠ .nil ∧
            errorsIs (Vars.Set osSetenv v env).1 (setenvErr k value) = true ∧
            (Vars.Set osSetenv v env).2 = env.setAll before ∧
            (∀ kv ∈ before, (Vars.Set osSetenv v env).2.lookup kv.1 = some kv.2) ∧
            (∀ name, name ∉ before.map Prod.fst →
              (Vars.Set osSetenv v env).2.lookup name = env.lookup name)) := by
  refine ⟨?_, ?_⟩
  · intro hv
    rw [Vars_Set_succeeds v env hv]
    refine ⟨rfl, fun kv hm => lookup_setAll_entry v h env hv kv hm, ?_⟩
    intro name hn
    exact lookup_setAll_other v name env
      (fun kv hkv he => hn (he ▸ List.mem_map_of_mem Prod.fst hkv))
  · intro before k value after hsplit hv hf
    subst hsplit
    rw [Vars_Set_stops before k value after env hv hf]
    have hb : Vars.WF before := by
      have hnd : (before.map Prod.fst ++ k :: after.map Prod.fst).Nodup := by
        simpa [Vars.WF] using h
      exact (List.nodup_append.mp hnd).1
    refine ⟨rfl, by simp, ?_, rfl, fun kv hm => lookup_setAll_entry before hb env hv kv hm, ?_⟩
    · rw [errorsIs_eq_is _ _ (by simp) hf]
      exact Err.is_wrapError _ _ _ (Err.is_self _ hf)
    · intro name hn
      exact lookup_setAll_other before name env
        (fun kv hkv he => hn (he ▸ List.mem_map_of_mem Prod.fst hkv))

theorem Vars_Set_spec_witness :
    (Vars.Set osSetenv [("A", "1"), ("", "x"), ("B", "2")] [("B", "0")]).2 =
        Environ.setAll [("B", "0")] [("A", "1")] ∧
      (Vars.Set osSetenv [("A", "1"), ("B", "2")] [("C", "3")]).1 = .nil :=
  ⟨((Vars_Set_spec [("A", "1"), ("", "x"), ("B", "2")] [("B", "0")] (by simp [Vars.WF])).2
      [("A", "1")] "" "x" [("B", "2")] rfl (by decide) (by decide)).2.2.2.1,
    ((Vars_Set_spec [("A", "1"), ("B", "2")] [("C", "3")] (by simp [Vars.WF])).1
      (by decide)).1⟩

example : Vars.Set osSetenv [("A", "1"), ("", "x"), ("B", "2")] [("B", "0")] =
    (.wrapError "failed to set environment variable : setenv: invalid argument"
      (.syscallError "setenv" EINVAL), [("B", "0"), ("A", "1")]) := by decide

/-! ## The kinds of error of Parse -/

theorem Parse_error_of_not_set {σ T : Type} [Inhabited T] (osLookupEnv : String → Option String)
    (name : String) (cnv : ConversionFunc σ T) (s : σ) (h : osLookupEnv name = none) :
    (Parse osLookupEnv name cnv s).1.2 = .parseError name ErrNotSet := by
  simp [Parse, h]

theorem Parse_error_of_set {σ T : Type} [Inhabited T] (osLookupEnv : String → Option String)
    (name v : String) (cnv : ConversionFunc σ T) (s : σ) (h : osLookupEnv name = some v) :
    (Parse osLookupEnv name cnv s).1.2 =
      if (cnv v s).1.2 = .nil then .nil
      else .parseError name (.invalidValueError v (cnv v s).1.2) := by
  rcases hc : cnv v s with ⟨⟨r, err⟩, s1⟩
  by_cases he : err = .nil <;> simp [Parse, h, hc, he]

theorem is_not_set_of_conversion (name v : String) (err : Err) (he : err ≠ .nil)
    (h : errorsIs err ErrNotSet = false) :
    errorsIs (.parseError name (.invalidValueError v err)) ErrNotSet = false := by
  have h1 : err.is ErrNotSet = false := by
    rwa [errorsIs_eq_is err ErrNotSet he (by decide)] at h
  rw [errorsIs_eq_is _ _ (by simp) (by decide), Err.is_parseError, Err.is_invalidValueError, h1]
  simp [ParseError_Is, InvalidValueError_Is, ErrNotSet]

/-- C25: provided the conversion function never returns an error that matches
`ErrNotSet`, for every name and every environment the error `err` that `Parse`
returns satisfies `errors.Is(err, ErrNotSet)` if and only if the variable is
not set, and `errors.Is(err, InvalidValueError{})` if and only if the variable
is set and the conversion failed; so `err` never matches both, and in both
cases of failure `err` matches `ParseError{VariableName: name}`. -/
theorem Parse_error_kinds {σ T : Type} [Inhabited T] (osLookupEnv : String → Option String)
    (name : String) (cnv : ConversionFunc σ T) (s : σ)
    (hcnv : ∀ v st, errorsIs (cnv v st).1.2 ErrNotSet = false) :
    (errorsIs (Parse osLookupEnv name cnv s).1.2 ErrNotSet = true ↔ osLookupEnv name = none) ∧
      (errorsIs (Parse osLookupEnv name cnv s).1.2 (.invalidValueError "" .nil) = true ↔
        ∃ v, osLookupEnv name = some v ∧ (cnv v s).1.2 ≠ .nil) ∧
      ¬ (errorsIs (Parse osLookupEnv name cnv s).1.2 ErrNotSet = true ∧
        errorsIs (Parse osLookupEnv name cnv s).1.2 (.invalidValueError "" .nil) = true) ∧
      ((osLookupEnv name = none ∨ ∃ v, osLookupEnv name = some v ∧ (cnv v s).1.2 ≠ .nil) →
        errorsIs (Parse osLookupEnv name cnv s).1.2 (.parseError name .nil) = true) := by
  cases h : osLookupEnv name with
  | none =>
      rw [Parse_error_of_not_set osLookupEnv name cnv s h]
      have h1 : errorsIs (.parseError name ErrNotSet) ErrNotSet = true := by
        simp [errorsIs, Err.is, ErrNotSet]
      have h2 : errorsIs (.parseError name ErrNotSet) (.invalidValueError "" .nil) = false := by
        simp [errorsIs, Err.is, ErrNotSet]
      have h3 : errorsIs (.parseError name ErrNotSet) (.parseError name .nil) = true := by
        simp [errorsIs, Err.is]
      simp [h1, h2, h3]
  | some v =>
      rw [Parse_error_of_set osLookupEnv name v cnv s h]
      by_cases he : (cnv v s).1.2 = .nil
      · simp [he, errorsIs, ErrNotSet]
      · have h1 := is_not_set_of_conversion name v _ he (hcnv v s)
        have h2 : errorsIs (.parseError name (.invalidValueError v (cnv v s).1.2))
            (.invalidValueError "" .nil) = true := by
          rw [errorsIs_eq_is _ _ (by simp) (by simp), Err.is_parseError,
            Err.is_invalidValueError]
          simp [InvalidValueError_Is]
        have h3 : errorsIs (.parseError name (.invalidValueError v (cnv v s).1.2))
            (.parseError name .nil) = true := by
          rw [errorsIs_eq_is _ _ (by simp) (by simp), Err.is_parseError]
          simp [ParseError_Is]
        simp [he, h1, h2, h3]

theorem Parse_error_kinds_witness :
    (errorsIs (Parse (Environ.lookup [("VAR", "abc")]) "VAR"
        (fun (_ : String) (st : Unit) => (((0 : Int), Err.errorString 100 "some error"), st))
        ()).1.2 ErrNotSet = true ↔ Environ.lookup [("VAR", "abc")] "VAR" = none) ∧
      (errorsIs (Parse (Environ.lookup [("VAR", "abc")]) "OTHER"
        (fun (_ : String) (st : Unit) => (((0 : Int), Err.errorString 100 "some error"), st))
        ()).1.2 ErrNotSet = true ↔ Environ.lookup [("VAR", "abc")] "OTHER" = none) :=
  ⟨(Parse_error_kinds (Environ.lookup [("VAR", "abc")]) "VAR"
      (fun (_ : String) (st : Unit) => (((0 : Int), Err.errorString 100 "some error"), st)) ()
      (fun _ _ => (by decide :
        errorsIs (Err.errorString 100 "some error") ErrNotSet = false))).1,
    (Parse_error_kinds (Environ.lookup [("VAR", "abc")]) "OTHER"
      (fun (_ : String) (st : Unit) => (((0 : Int), Err.errorString 100 "some error"), st)) ()
      (fun _ _ => (by decide :
        errorsIs (Err.errorString 100 "some error") ErrNotSet = false))).1⟩

example : (Parse (Environ.lookup [("VAR", "abc")]) "VAR"
    (fun (v : String) (st : Unit) => (asInt v, st)) ()).1.2 =
      .parseError "VAR" (.invalidValueError "abc" (.numError "Atoi" "abc" ErrSyntax)) := by
  decide
example : errorsIs (.parseError "VAR" (.invalidValueError "abc" ErrNotSet)) ErrNotSet = true := by
  decide

/-! ## Read errors and lines without `=` -/

theorem loadFile_ignores_scanErr (fs : FileSystem) (path : String) (env : Environ)
    (log : List String) :
    loadFile (recording fs) path env log = loadFile (recording (withoutScanErr fs)) path env log := by
  simp [loadFile, recording, withoutScanErr]

/-- C23 (failing input): `a.env` opens, gives the line `A=1` and then the read
fails, so that `scanner.Err()` is not nil.  `loadFile("a.env")` sets `A` and
returns nil, and `Load("a.env")` returns nil: the read error is reported
nowhere. -/
theorem loadFile_drops_read_error :
    (fsReadFails "a.env").2 = .nil ∧
      (fsReadFails "a.env").1.scanErr = .errorString 104 "read error" ∧
      loadFile (recording fsReadFails) "a.env" [] [] =
        (.returned .nil, [("A", "1")], ["a.env"]) ∧
      Load (recording fsReadFails) ["a.env"] [] [] =
        (.returned .nil, [("A", "1")], [".env", "a.env"]) := by
  decide

/-- C24 (failing input): for the file content of the single line `FOO`, which
is not blank, is no comment and holds no `=`, `strings.SplitN` gives one part
and `loadFile` does not return: it panics at `parts[1]`. -/
theorem loadFile_panics_on_line_without_equals :
    stringsSplitN2 (stringsTrimSpace "FOO") '=' = ["FOO"] ∧
      loadFile (recording (fun _ => fakeFile ["FOO"])) "a.env" [] [] =
        (.panic "runtime error: index out of range [1] with length 1", [], ["a.env"]) := by
  decide

end env
